import Mathlib

/-!
Verification development for the `xyzs_py` utility toolkit.

Python strings are embedded as `List Char`, Python values (the YAML / msgpack /
JSON value domain that flows through the toolkit) as the inductive `PVal`.
Python floats only ever appear here as decimal literals read from YAML or
Redis, so they are embedded as exact decimal numerals (`DecFloat`); no binary
floating-point arithmetic is performed by the code under verification.
Each Python method is translated into a Lean function of the same name
(modulo namespaces); stateful classes become explicit state passing, and
calls into the underlying `redis` client are represented by an oracle record
holding the outcome of each client call plus an event trace recording the
arguments the wrapper sent to the client.
-/

namespace XyzsPy

abbrev LC := List Char

/-- Exception kinds raised by the Python conversion builtins. -/
inductive PyErr where
  | typeError
  | valueError
  deriving DecidableEq, Repr

/-- Outcome of a Python call: a returned value or a raised exception. -/
inductive PyResult (ε : Type) (α : Type) where
  | ret (v : α)
  | exn (e : ε)
  deriving DecidableEq, Repr

/-- Exact decimal numeral, the embedding of the floats the toolkit reads from
YAML / Redis: a sign, integer part, and fractional digit list. -/
structure DecFloat where
  neg : Bool
  ip : Nat
  frac : List Nat
  deriving DecidableEq, Repr

/-- The Python value domain flowing through the toolkit (YAML scalars and
collections, msgpack values, JSON values). -/
inductive PVal where
  | vnone
  | vbool (b : Bool)
  | vint (n : Int)
  | vfloat (f : DecFloat)
  | vstr (s : LC)
  | vlist (xs : List PVal)
  | vdict (kvs : List (LC × PVal))
  deriving Inhabited

/-- Association-list lookup, the embedding of Python `dict` key access for the
string-keyed dicts used by the toolkit. -/
def alookup {β : Type} (k : LC) : List (LC × β) → Option β
  | [] => none
  | (k', v) :: r => if k' = k then some v else alookup k r

def isPyWs (c : Char) : Bool :=
  c = ' ' || c = '\t' || c = '\n' || c = '\r'

/-- Embedding of Python `str.strip()` (ASCII whitespace). -/
def trimL (l : LC) : LC :=
  ((l.dropWhile isPyWs).reverse.dropWhile isPyWs).reverse

/-- ASCII `str.lower()`, applied characterwise (65–90 are `'A'`–`'Z'`). -/
def pyLowerChar (c : Char) : Char :=
  if 65 ≤ c.toNat ∧ c.toNat ≤ 90 then Char.ofNat (c.toNat + 32) else c

/-- ASCII `str.upper()`, applied characterwise (97–122 are `'a'`–`'z'`). -/
def pyUpperChar (c : Char) : Char :=
  if 97 ≤ c.toNat ∧ c.toNat ≤ 122 then Char.ofNat (c.toNat - 32) else c

/-- Digits of a decimal numeral folded into a natural number. -/
def digitsToNat (l : LC) : Nat :=
  l.foldl (fun a c => a * 10 + (c.toNat - 48)) 0

/-- Embedding of CPython `int(str)` on the forms the toolkit meets: optional
surrounding whitespace, an optional sign, then a nonempty digit run.
(Numeric-literal underscores are not modelled.) -/
def parseIntStr (s : LC) : Option Int :=
  let t := trimL s
  match t with
  | '+' :: ds => if ds ≠ [] ∧ ds.all Char.isDigit then some (digitsToNat ds) else none
  | '-' :: ds => if ds ≠ [] ∧ ds.all Char.isDigit then some (-(digitsToNat ds : Int)) else none
  | ds => if ds ≠ [] ∧ ds.all Char.isDigit then some (digitsToNat ds) else none

/-- Embedding of CPython `float(str)` on plain decimal literals:
optional whitespace and sign, digits with an optional fractional part
(exponents and the special values are not modelled). -/
def parseFloatStr (s : LC) : Option DecFloat :=
  let t := trimL s
  let core : Bool × LC :=
    match t with
    | '+' :: r => (false, r)
    | '-' :: r => (true, r)
    | r => (false, r)
  let ds := core.2.takeWhile Char.isDigit
  let rest := core.2.dropWhile Char.isDigit
  match rest with
  | [] => if ds ≠ [] then some ⟨core.1, digitsToNat ds, []⟩ else none
  | '.' :: fs =>
    if fs.all Char.isDigit ∧ (ds ≠ [] ∨ fs ≠ []) then
      some ⟨core.1, digitsToNat ds, fs.map (fun c => c.toNat - 48)⟩
    else none
  | _ => none

/-- Embedding of Python `int(v)`: raises `TypeError` on `None`, lists and
dicts, `ValueError` on unparseable strings, truncates floats toward zero. -/
def pyInt : PVal → Except PyErr Int
  | .vbool b => .ok (if b then 1 else 0)
  | .vint n => .ok n
  | .vfloat f => .ok (if f.neg then -(f.ip : Int) else (f.ip : Int))
  | .vstr s =>
    match parseIntStr s with
    | some n => .ok n
    | none => .error .valueError
  | .vnone => .error .typeError
  | .vlist _ => .error .typeError
  | .vdict _ => .error .typeError

/-- Embedding of Python `float(v)`. -/
def pyFloat : PVal → Except PyErr DecFloat
  | .vbool b => .ok ⟨false, if b then 1 else 0, []⟩
  | .vint n => .ok ⟨n < 0, n.natAbs, []⟩
  | .vfloat f => .ok f
  | .vstr s =>
    match parseFloatStr s with
    | some f => .ok f
    | none => .error .valueError
  | .vnone => .error .typeError
  | .vlist _ => .error .typeError
  | .vdict _ => .error .typeError

def decFloatIsZero (f : DecFloat) : Bool :=
  f.ip = 0 && f.frac.all (· = 0)

/-- Embedding of Python truthiness `bool(v)` on the toolkit's value domain. -/
def pyTruthy : PVal → Bool
  | .vnone => false
  | .vbool b => b
  | .vint n => n ≠ 0
  | .vfloat f => !decFloatIsZero f
  | .vstr s => s ≠ []
  | .vlist xs => !xs.isEmpty
  | .vdict kvs => !kvs.isEmpty

/-! ## ExcelUtil (src/xyzs_py/ExcelUtil.py) -/

namespace ExcelUtil

/-- Least-significant-first digit list produced by the `while n > 0` loop of
`column_name_by_index` (each step: `n -= 1; emit n % 26; n //= 26`). -/
def nameDigits : Nat → LC
  | 0 => []
  | n + 1 => Char.ofNat (n % 26 + 65) :: nameDigits (n / 26)
  decreasing_by exact Nat.lt_succ_of_le (Nat.div_le_self n 26)

/-- `ExcelUtil.column_name_by_index`: `ValueError` on a negative index, else
the base-26 bijective numeral of `index + 1`. -/
def column_name_by_index (index : Int) : Except PyErr LC :=
  if index < 0 then .error .valueError
  else .ok (nameDigits (index.toNat + 1)).reverse

/-- The `'A' <= ch <= 'Z'` test of `column_index_by_name` (ASCII 65–90). -/
def isUpperAZ (c : Char) : Bool := 65 ≤ c.toNat && c.toNat ≤ 90

/-- The accumulator loop of `column_index_by_name`
(`acc = acc * 26 + (ord(ch) - ord('A') + 1)`), raising on a character
outside `'A'..'Z'`. -/
def indexLoop (acc : Nat) : LC → Except PyErr Nat
  | [] => .ok acc
  | c :: cs =>
    if isUpperAZ c then indexLoop (acc * 26 + (c.toNat - 64)) cs
    else .error .valueError

/-- `ExcelUtil.column_index_by_name`: upper-case the input, run the
accumulator loop, return `acc - 1` (0-based). -/
def column_index_by_name (column : LC) : Except PyErr Int :=
  match indexLoop 0 (column.map pyUpperChar) with
  | .ok acc => .ok ((acc : Int) - 1)
  | .error e => .error e

end ExcelUtil

/-! ## JsonUtil (src/xyzs_py/JsonUtil.py) -/

namespace JsonUtil

/-- Embedding of Python `str.split('.')`. -/
def splitDot : LC → List LC
  | [] => [[]]
  | '.' :: r => [] :: splitDot r
  | c :: r =>
    match splitDot r with
    | [] => [[c]]
    | g :: gs => (c :: g) :: gs

/-- The key-walking loop of `JsonUtil.get`: follow each key through dicts,
returning the default as soon as a node is not a dict or lacks the key. -/
def getLoop (dflt : PVal) : PVal → List LC → PVal
  | cur, [] => cur
  | cur, k :: ks =>
    match cur with
    | .vdict kvs =>
      match alookup k kvs with
      | some v => getLoop dflt v ks
      | none => dflt
    | _ => dflt

/-- `JsonUtil.get(data, key_path, default)`. -/
def get (data : PVal) (key_path : LC) (dflt : PVal) : PVal :=
  match data with
  | .vdict _ => if key_path = [] then dflt else getLoop dflt data (splitDot key_path)
  | _ => dflt

/-- Modelled from the spec's words for the refinement check of the claim about
`JsonUtil.get`: follow the dot-separated keys, succeeding exactly when every
intermediate node is a dict containing the next key. -/
def getSpec : PVal → List LC → Option PVal
  | cur, [] => some cur
  | cur, k :: ks =>
    match cur with
    | .vdict kvs =>
      match alookup k kvs with
      | some v => getSpec v ks
      | none => none
    | _ => none

end JsonUtil

/-! ## XCache (src/xyzs_py/cache/XCache.py)

The `redis.Redis` client is represented by a `CacheOracle` giving the outcome
of each underlying client call (raising a `RedisErr` or returning a value;
msgpack serialization is modelled as the identity on `PVal`).  Each wrapper
method returns the updated object state, the trace of calls it made into the
redis library, and its Python result. -/

/-- A `redis.RedisError` instance, distinguished by a code so that
"passes the exception through unchanged" is expressible. -/
structure RedisErr where
  code : Nat
  deriving DecidableEq, Repr

/-- Calls the wrapper issues to the redis client (with the arguments sent). -/
inductive CEvent where
  | connect
  | callGet (key : LC)
  | callSet (key : LC) (value : PVal) (px : Nat)
  | callDel (key : LC)
  | callExists (key : LC)
  | callIncr (key : LC) (amount : Int)
  | callDecr (key : LC) (amount : Int)

/-- Whether a client call carries a key-lifetime (TTL) argument. -/
def CEvent.carriesTTL : CEvent → Bool
  | .callSet _ _ _ => true
  | _ => false

def CEvent.isConnect : CEvent → Bool
  | .connect => true
  | _ => false

/-- Outcomes of the underlying redis client calls for one wrapper call. -/
structure CacheOracle where
  ping_ok : Bool
  get_result : Except RedisErr (Option PVal)
  set_result : Except RedisErr (Option Bool)
  del_result : Except RedisErr Nat
  exists_result : Except RedisErr Nat
  incr_result : Except RedisErr Int
  decr_result : Except RedisErr Int

/-- The mutable state of an `XCache` object: its connection parameters and
whether `_client` has been assigned (`false` embeds `_client is None`). -/
structure XCacheObj where
  host : LC
  port : Nat
  username : LC
  password : LC
  db : Nat
  client : Bool

namespace XCache

/-- `XCache.__init__`: stores the parameters and leaves `_client = None`. -/
def init (host : LC) (port : Nat) (username password : LC) (db : Nat) : XCacheObj :=
  { host := host, port := port, username := username, password := password,
    db := db, client := false }

/-- `XCache._init_client`: when `_client is None`, construct the client
(assigning `_client` before the ping) and ping it, returning `False` if the
ping raises `redis.ConnectionError`; otherwise report success at once. -/
def init_client (o : CacheOracle) (st : XCacheObj) : XCacheObj × List CEvent × Bool :=
  if st.client = false then
    ({ st with client := true }, [.connect], o.ping_ok)
  else (st, [], true)

/-- `XCache.get`: on init failure or a caught `redis.RedisError` return the
default; an absent key also yields the default. -/
def get (o : CacheOracle) (st : XCacheObj) (key : LC) (dflt : PVal) :
    XCacheObj × List CEvent × PyResult RedisErr PVal :=
  let r := init_client o st
  if r.2.2 = false then (r.1, r.2.1, .ret dflt)
  else
    match o.get_result with
    | .error _ => (r.1, r.2.1 ++ [.callGet key], .ret dflt)
    | .ok none => (r.1, r.2.1 ++ [.callGet key], .ret dflt)
    | .ok (some v) => (r.1, r.2.1 ++ [.callGet key], .ret v)

/-- Default of `XCache.set`'s `expire` parameter (milliseconds). -/
def setDefaultExpire : Nat := 3600000

/-- `XCache.set`: serialize the value and call `client.set(name=key, value=…,
px=expire)`; return `False` on init failure or a caught `redis.RedisError`. -/
def set (o : CacheOracle) (st : XCacheObj) (key : LC) (value : PVal) (expire : Nat) :
    XCacheObj × List CEvent × PyResult RedisErr (Option Bool) :=
  let r := init_client o st
  if r.2.2 = false then (r.1, r.2.1, .ret (some false))
  else
    match o.set_result with
    | .error _ => (r.1, r.2.1 ++ [.callSet key value expire], .ret (some false))
    | .ok b => (r.1, r.2.1 ++ [.callSet key value expire], .ret b)

/-- `XCache.delete`: `None` on init failure, `0` on a caught
`redis.RedisError`, else the client's deleted-key count. -/
def delete (o : CacheOracle) (st : XCacheObj) (key : LC) :
    XCacheObj × List CEvent × PyResult RedisErr (Option Nat) :=
  let r := init_client o st
  if r.2.2 = false then (r.1, r.2.1, .ret none)
  else
    match o.del_result with
    | .error _ => (r.1, r.2.1 ++ [.callDel key], .ret (some 0))
    | .ok n => (r.1, r.2.1 ++ [.callDel key], .ret (some n))

/-- `XCache.exists`: `None` on init failure, `False` on a caught
`redis.RedisError`, else the client's count. -/
def existsKey (o : CacheOracle) (st : XCacheObj) (key : LC) :
    XCacheObj × List CEvent × PyResult RedisErr PVal :=
  let r := init_client o st
  if r.2.2 = false then (r.1, r.2.1, .ret .vnone)
  else
    match o.exists_result with
    | .error _ => (r.1, r.2.1 ++ [.callExists key], .ret (.vbool false))
    | .ok n => (r.1, r.2.1 ++ [.callExists key], .ret (.vint n))

/-- `XCache.increment`: `None` on init failure or a caught `redis.RedisError`. -/
def increment (o : CacheOracle) (st : XCacheObj) (key : LC) (amount : Int) :
    XCacheObj × List CEvent × PyResult RedisErr (Option Int) :=
  let r := init_client o st
  if r.2.2 = false then (r.1, r.2.1, .ret none)
  else
    match o.incr_result with
    | .error _ => (r.1, r.2.1 ++ [.callIncr key amount], .ret none)
    | .ok n => (r.1, r.2.1 ++ [.callIncr key amount], .ret (some n))

/-- `XCache.decrement`: `None` on init failure or a caught `redis.RedisError`. -/
def decrement (o : CacheOracle) (st : XCacheObj) (key : LC) (amount : Int) :
    XCacheObj × List CEvent × PyResult RedisErr (Option Int) :=
  let r := init_client o st
  if r.2.2 = false then (r.1, r.2.1, .ret none)
  else
    match o.decr_result with
    | .error _ => (r.1, r.2.1 ++ [.callDecr key amount], .ret none)
    | .ok n => (r.1, r.2.1 ++ [.callDecr key amount], .ret (some n))

/-- `XCache.getInt`: `int(self.get(key, default))` with only `ValueError`
caught — a `TypeError` from `int()` propagates to the caller. -/
def getInt (o : CacheOracle) (st : XCacheObj) (key : LC) (dflt : PVal) :
    XCacheObj × List CEvent × PyResult PyErr PVal :=
  let r := get o st key dflt
  match r.2.2 with
  | .exn _ => (r.1, r.2.1, .exn .typeError)
  | .ret v =>
    match pyInt v with
    | .ok n => (r.1, r.2.1, .ret (.vint n))
    | .error .valueError => (r.1, r.2.1, .ret dflt)
    | .error .typeError => (r.1, r.2.1, .exn .typeError)

/-- `XCache.getFloat`: `float(self.get(key, default))` with only `ValueError`
caught — a `TypeError` from `float()` propagates to the caller. -/
def getFloat (o : CacheOracle) (st : XCacheObj) (key : LC) (dflt : PVal) :
    XCacheObj × List CEvent × PyResult PyErr PVal :=
  let r := get o st key dflt
  match r.2.2 with
  | .exn _ => (r.1, r.2.1, .exn .typeError)
  | .ret v =>
    match pyFloat v with
    | .ok f => (r.1, r.2.1, .ret (.vfloat f))
    | .error .valueError => (r.1, r.2.1, .ret dflt)
    | .error .typeError => (r.1, r.2.1, .exn .typeError)

end XCache

/-! ## XCacheFactory (src/xyzs_py/cache/XCacheFactory.py)

Python object identity is embedded by stamping each freshly constructed
`XCache` with a unique id drawn from a counter in the registry state. -/

structure XCacheParams where
  host : LC
  port : Nat
  username : LC
  password : LC
  db : Nat
  deriving DecidableEq, Repr

/-- An `XCache` instance held by the factory: identity tag plus the
construction parameters. -/
structure CacheInst where
  uid : Nat
  params : XCacheParams
  deriving DecidableEq, Repr

/-- The `XCacheFactory._instances` registry plus the fresh-identity counter. -/
structure XCacheFactorySt where
  instances : List (LC × CacheInst)
  nextUid : Nat
  deriving Repr

namespace XCacheFactory

/-- `XCacheFactory.create`: return the registered instance when the name is
taken (ignoring the new parameters), otherwise construct, register and
return a fresh instance. -/
def create (s : XCacheFactorySt) (name : LC) (p : XCacheParams) :
    XCacheFactorySt × CacheInst :=
  match alookup name s.instances with
  | some inst => (s, inst)
  | none =>
    let inst : CacheInst := ⟨s.nextUid, p⟩
    ({ instances := (name, inst) :: s.instances, nextUid := s.nextUid + 1 }, inst)

end XCacheFactory

/-! ## Legacy singleton XCache (src/build/lib/xyzs_py/XCache.py)

The legacy class keeps one global instance holding the connected client, a
default expire, and a key prefix; every operation prepends the prefix to the
caller's key before calling the client.  The connected client's call outcomes
are again given by a `CacheOracle`; the events record the exact key sent. -/

/-- The legacy singleton's per-instance data (`self.expire`, `self.prefix`). -/
structure LegacyInst where
  expire : Nat
  keyPre : LC

namespace LegacyXCache

/-- `XCache.set` (legacy): prefix the key, use the given expire or the
instance default, call `client.set(..., px=expire)`; `None` when the
singleton is uninitialized or on a caught `redis.RedisError`. -/
def set (o : CacheOracle) (inst : Option LegacyInst) (key : LC) (value : PVal)
    (expire : Option Nat) : List CEvent × PyResult RedisErr (Option Bool) :=
  match inst with
  | none => ([], .ret none)
  | some i =>
    let k := i.keyPre ++ key
    let px := expire.getD i.expire
    match o.set_result with
    | .error _ => ([.callSet k value px], .ret none)
    | .ok b => ([.callSet k value px], .ret b)

/-- `XCache.get` (legacy): prefix the key; a falsy stored value yields the
default; `None` when uninitialized or on a caught `redis.RedisError`. -/
def get (o : CacheOracle) (inst : Option LegacyInst) (key : LC) (dflt : PVal) :
    List CEvent × PyResult RedisErr PVal :=
  match inst with
  | none => ([], .ret .vnone)
  | some i =>
    let k := i.keyPre ++ key
    match o.get_result with
    | .error _ => ([.callGet k], .ret .vnone)
    | .ok none => ([.callGet k], .ret dflt)
    | .ok (some v) => ([.callGet k], .ret (if pyTruthy v then v else dflt))

/-- `XCache.delete` (legacy): prefix the key; `None` when uninitialized or on
a caught `redis.RedisError`. -/
def delete (o : CacheOracle) (inst : Option LegacyInst) (key : LC) :
    List CEvent × PyResult RedisErr (Option Nat) :=
  match inst with
  | none => ([], .ret none)
  | some i =>
    let k := i.keyPre ++ key
    match o.del_result with
    | .error _ => ([.callDel k], .ret none)
    | .ok n => ([.callDel k], .ret (some n))

/-- `XCache.exists` (legacy): prefix the key; `False` when uninitialized or
on a caught `redis.RedisError`. -/
def existsKey (o : CacheOracle) (inst : Option LegacyInst) (key : LC) :
    List CEvent × PyResult RedisErr PVal :=
  match inst with
  | none => ([], .ret (.vbool false))
  | some i =>
    let k := i.keyPre ++ key
    match o.exists_result with
    | .error _ => ([.callExists k], .ret (.vbool false))
    | .ok n => ([.callExists k], .ret (.vint n))

/-- `XCache.increment` (legacy): prefix the key; `None` when uninitialized or
on a caught `redis.RedisError`. -/
def increment (o : CacheOracle) (inst : Option LegacyInst) (key : LC) (amount : Int) :
    List CEvent × PyResult RedisErr (Option Int) :=
  match inst with
  | none => ([], .ret none)
  | some i =>
    let k := i.keyPre ++ key
    match o.incr_result with
    | .error _ => ([.callIncr k amount], .ret none)
    | .ok n => ([.callIncr k amount], .ret (some n))

/-- `XCache.decrement` (legacy): prefix the key; `None` when uninitialized or
on a caught `redis.RedisError`. -/
def decrement (o : CacheOracle) (inst : Option LegacyInst) (key : LC) (amount : Int) :
    List CEvent × PyResult RedisErr (Option Int) :=
  match inst with
  | none => ([], .ret none)
  | some i =>
    let k := i.keyPre ++ key
    match o.decr_result with
    | .error _ => ([.callDecr k amount], .ret none)
    | .ok n => ([.callDecr k amount], .ret (some n))

end LegacyXCache

/-! ## XDBFactory (src/xyzs_py/database/XDBFactory.py)

The sync/async managers are opaque handles (`Nat`).  A registration listener
is a function from the requested key and the current bundle table to an
updated bundle table (the listener's own calls back into `register`), and the
event trace records each listener invocation. -/

/-- A `DBBundle`: optional sync and async managers registered under one key. -/
structure DBBundle where
  sync : Option Nat
  async_ : Option Nat
  deriving DecidableEq, Repr

abbrev Bundles := List (LC × DBBundle)

/-- Listener-invocation events of the DB factory. -/
inductive DBEvent where
  | mainCalled (key : LC)
  | slaveCalled (key : LC)
  deriving DecidableEq, Repr

/-- The class-level state of `XDBFactory`. -/
structure XDBFactorySt where
  bundles : Bundles
  mainListener : Option (LC → Bundles → Bundles)
  slaveListener : Option (LC → Bundles → Bundles)

namespace XDBFactory

def mainKey : LC := ['m', 'a', 'i', 'n']

/-- `XDBFactory.register_main_db`: store the listener; nothing else. -/
def register_main_db (s : XDBFactorySt) (f : LC → Bundles → Bundles) : XDBFactorySt :=
  { s with mainListener := some f }

/-- `XDBFactory.register_slave_db`: store the listener; nothing else. -/
def register_slave_db (s : XDBFactorySt) (g : LC → Bundles → Bundles) : XDBFactorySt :=
  { s with slaveListener := some g }

/-- The listener-trigger prologue shared by `get_sync_db` and `get_async_db`:
when the key has no bundle, call the main listener if the key is `"main"`
and a main listener is injected, else the slave listener if injected. -/
def triggerListeners (s : XDBFactorySt) (db_name : LC) : Bundles × List DBEvent :=
  if alookup db_name s.bundles = none then
    if db_name = mainKey ∧ s.mainListener.isSome then
      match s.mainListener with
      | some f => (f db_name s.bundles, [.mainCalled db_name])
      | none => (s.bundles, [])
    else
      match s.slaveListener with
      | some g => (g db_name s.bundles, [.slaveCalled db_name])
      | none => (s.bundles, [])
  else (s.bundles, [])

/-- `XDBFactory.get_sync_db`. -/
def get_sync_db (s : XDBFactorySt) (db_name : LC) (required : Bool) :
    XDBFactorySt × List DBEvent × PyResult Unit (Option Nat) :=
  let t := triggerListeners s db_name
  let s1 := { s with bundles := t.1 }
  match alookup db_name t.1 with
  | some b =>
    match b.sync with
    | some m => (s1, t.2, .ret (some m))
    | none => if required then (s1, t.2, .exn ()) else (s1, t.2, .ret none)
  | none => if required then (s1, t.2, .exn ()) else (s1, t.2, .ret none)

/-- `XDBFactory.get_async_db`. -/
def get_async_db (s : XDBFactorySt) (db_name : LC) (required : Bool) :
    XDBFactorySt × List DBEvent × PyResult Unit (Option Nat) :=
  let t := triggerListeners s db_name
  let s1 := { s with bundles := t.1 }
  match alookup db_name t.1 with
  | some b =>
    match b.async_ with
    | some m => (s1, t.2, .ret (some m))
    | none => if required then (s1, t.2, .exn ()) else (s1, t.2, .ret none)
  | none => if required then (s1, t.2, .exn ()) else (s1, t.2, .ret none)

end XDBFactory

/-! ## ConfigManager path lookup and typed getters
(src/xyzs_py/ConfigManager.py) -/

namespace ConfigManager

/-- A path token: a dict key or a list index. -/
abbrev Tok := LC ⊕ Nat

/-- Append the pending buffer as a string token (the `flush()` helper of
`_tokenize_path`). -/
def flushPre (buf : LC) (ts : List Tok) : List Tok :=
  if buf = [] then ts else Sum.inl buf :: ts

mutual
/-- The character loop of `_tokenize_path` outside brackets: `.` flushes the
buffer, `[` switches to index scanning, other characters extend the buffer.
`none` embeds Python's `return []` on malformed input. -/
def tokTop (buf : LC) : LC → Option (List Tok)
  | [] => some (flushPre buf [])
  | '.' :: r => (tokTop [] r).map (flushPre buf)
  | '[' :: r => tokIdx buf [] r
  | c :: r => tokTop (buf ++ [c]) r

/-- Scanning between `[` and `]`: collect the index characters; at `]` the
stripped index must be all digits, else the whole tokenization fails. -/
def tokIdx (buf idx : LC) : LC → Option (List Tok)
  | [] => none
  | ']' :: r =>
    let t := trimL idx
    if t ≠ [] ∧ t.all Char.isDigit then
      (tokTop [] r).map (fun ts => flushPre buf (Sum.inr (digitsToNat t) :: ts))
    else none
  | c :: r => tokIdx buf (idx ++ [c]) r
end

/-- `ConfigManager._tokenize_path`: strip, scan, `[]` on malformed input. -/
def tokenize_path (key_path : LC) : List Tok :=
  (tokTop [] (trimL key_path)).getD []

/-- The traversal loop of `_get_by_path`: a string token needs a dict
containing it, an index token a list with the index in range, and a `None`
value encountered along the way yields the default. -/
def walk : PVal → List Tok → Option PVal
  | cur, [] => some cur
  | cur, Sum.inl k :: ts =>
    match cur with
    | .vdict kvs =>
      match alookup k kvs with
      | some .vnone => none
      | some v => walk v ts
      | none => none
    | _ => none
  | cur, Sum.inr idx :: ts =>
    match cur with
    | .vlist xs =>
      match xs[idx]? with
      | some .vnone => none
      | some v => walk v ts
      | none => none
    | _ => none

/-- `ConfigManager._get_by_path(root, key_path, default)`; `none` is the
"return the default" outcome. -/
def get_by_path (root : PVal) (key_path : LC) : Option PVal :=
  match root with
  | .vnone => none
  | _ =>
    if key_path = [] then none
    else
      match tokenize_path key_path with
      | [] => none
      | ts => walk root ts

/-- `ConfigManager.get_int`: absent key (or stored `None`) gives the default;
`int(v)` with both `TypeError` and `ValueError` caught gives the default. -/
def get_int (root : PVal) (key_path : LC) (dflt : Int) : Int :=
  match get_by_path root key_path with
  | none => dflt
  | some v =>
    match pyInt v with
    | .ok n => n
    | .error _ => dflt

/-- `ConfigManager.get_float`: as `get_int` with `float(v)`. -/
def get_float (root : PVal) (key_path : LC) (dflt : DecFloat) : DecFloat :=
  match get_by_path root key_path with
  | none => dflt
  | some v =>
    match pyFloat v with
    | .ok f => f
    | .error _ => dflt

def trueWords : List LC :=
  [['t','r','u','e'], ['1'], ['y','e','s'], ['y'], ['o','n']]

def falseWords : List LC :=
  [['f','a','l','s','e'], ['0'], ['n','o'], ['n'], ['o','f','f']]

/-- `ConfigManager.get_bool`: bools pass through, numbers compare to zero,
recognized strings map to their truth value, unrecognized strings give the
default, and any other value is converted by Python truthiness. -/
def get_bool (root : PVal) (key_path : LC) (dflt : Bool) : Bool :=
  match get_by_path root key_path with
  | none => dflt
  | some v =>
    match v with
    | .vbool b => b
    | .vint n => n ≠ 0
    | .vfloat f => !decFloatIsZero f
    | .vstr s =>
      let t := (trimL s).map pyLowerChar
      if t ∈ trueWords then true
      else if t ∈ falseWords then false
      else dflt
    | other => pyTruthy other

end ConfigManager

/-! ## ConfigManager interpolation (src/xyzs_py/ConfigManager.py)

`_interpolate_str` works in three phases: replace every literal `\` `$` `{`
with the escape marker `__CFG_ESC_DOLLAR_LBRACE__`, substitute every regex
match of `_ENV_PATTERN` (a `$` `{`, a name `[A-Za-z_][A-Za-z0-9_]*`, an
optional `:`-led spec of non-`\x7d` characters, then `\x7d`) through `repl`,
and finally turn the markers back into literal `$` `{`.  The environment is a
partial map from names to values, and a raised `ConfigError` is the `error`
branch of `Except`. -/

namespace ConfigManager

/-- Embedding of Python `str.replace(pat, rep)` for a nonempty pattern:
leftmost, non-overlapping. -/
def replaceAll (pat rep : LC) : LC → LC
  | [] => []
  | c :: cs =>
    if pat.isPrefixOf (c :: cs) ∧ pat ≠ [] then
      rep ++ replaceAll pat rep (cs.drop (pat.length - 1))
    else c :: replaceAll pat rep cs
  termination_by l => l.length
  decreasing_by
  · simp only [List.length_cons]
    have := List.length_drop (pat.length - 1) cs
    omega
  · simp

/-- Whether `pat` occurs as a contiguous run inside `l`. -/
def hasSub (pat : LC) : LC → Bool
  | [] => pat.isEmpty
  | c :: cs => pat.isPrefixOf (c :: cs) || hasSub pat cs

/-- `_ESCAPED_MARK`. -/
def escMark : LC :=
  ['_','_','C','F','G','_','E','S','C','_','D','O','L','L','A','R','_',
   'L','B','R','A','C','E','_','_']

/-- The literal text replaced by the marker: backslash, dollar, brace. -/
def escPat : LC := ['\\', '$', '{']

/-- The literal text restored for each marker: dollar, brace. -/
def dollarBrace : LC := ['$', '{']

/-- First character of a `_ENV_PATTERN` variable name: `[A-Za-z_]`. -/
def isNameStartChar (c : Char) : Bool := c.isAlpha || c = '_'

/-- Later characters of a variable name: `[A-Za-z0-9_]`. -/
def isNameChar (c : Char) : Bool := c.isAlphanum || c = '_'

/-- A wellformed `_ENV_PATTERN` variable name: `[A-Za-z_][A-Za-z0-9_]*`. -/
def validName : LC → Bool
  | [] => false
  | c :: cs => isNameStartChar c && cs.all isNameChar

theorem length_dropWhile_le (p : Char → Bool) (l : LC) :
    (l.dropWhile p).length ≤ l.length :=
  (List.dropWhile_suffix p).length_le

/-- Match the part of `_ENV_PATTERN` after the variable name: either the
closing brace at once (no spec), or a colon, the longest run of
non-closing-brace characters, and the closing brace. -/
def matchSuffix : LC → Option (Option LC × LC)
  | [] => none
  | d :: ds =>
    if d = '}' then some (none, ds)
    else if d = ':' then
      match ds.dropWhile (fun ch => ch ≠ '}') with
      | [] => none
      | _ :: es => some (some (':' :: ds.takeWhile (fun ch => ch ≠ '}')), es)
    else none

theorem matchSuffix_rest_lt {l : LC} {sp : Option LC} {rest : LC}
    (h : matchSuffix l = some (sp, rest)) : rest.length < l.length := by
  match l with
  | [] => simp [matchSuffix] at h
  | d :: ds =>
    simp only [matchSuffix] at h
    split at h
    · simp only [Option.some.injEq, Prod.mk.injEq] at h
      obtain ⟨-, hr⟩ := h
      subst hr
      simp
    · split at h
      · have hdw2 : (ds.dropWhile (fun ch => ch ≠ '}')).length ≤ ds.length :=
          length_dropWhile_le _ ds
        cases hds : ds.dropWhile (fun ch => ch ≠ '}') with
        | nil => rw [hds] at h; simp at h
        | cons e es =>
          rw [hds] at h
          rw [hds] at hdw2
          simp only [List.length_cons] at hdw2
          simp only [Option.some.injEq, Prod.mk.injEq] at h
          obtain ⟨-, hr⟩ := h
          subst hr
          simp only [List.length_cons]
          omega
      · simp at h

/-- Try to match `_ENV_PATTERN` at the head of the list, returning the
variable name, the optional spec (with its leading colon), and the input
remaining after the closing brace. -/
def tryMatch : LC → Option (LC × Option LC × LC)
  | a :: b :: c :: cs =>
    if a = '$' ∧ b = '{' ∧ isNameStartChar c then
      match matchSuffix (cs.dropWhile isNameChar) with
      | some (sp, rest) => some (c :: cs.takeWhile isNameChar, sp, rest)
      | none => none
    else none
  | _ => none

theorem tryMatch_rest_lt {l : LC} {nm : LC} {sp : Option LC} {rest : LC}
    (h : tryMatch l = some (nm, sp, rest)) : rest.length < l.length := by
  match l with
  | [] => simp [tryMatch] at h
  | [a] => simp [tryMatch] at h
  | [a, b] => simp [tryMatch] at h
  | a :: b :: c :: cs =>
    simp only [tryMatch] at h
    split at h
    case isFalse => simp at h
    case isTrue =>
      have hdw : (cs.dropWhile isNameChar).length ≤ cs.length :=
        length_dropWhile_le isNameChar cs
      cases hms : matchSuffix (cs.dropWhile isNameChar) with
      | none => rw [hms] at h; simp at h
      | some pr =>
        obtain ⟨sp', rest'⟩ := pr
        have hlt := matchSuffix_rest_lt hms
        rw [hms] at h
        simp only [Option.some.injEq, Prod.mk.injEq] at h
        obtain ⟨-, -, hr⟩ := h
        subst hr
        simp only [List.length_cons]
        omega

/-- The `ConfigError` message raised for a missing required variable,
`"required env missing: <name>, <msg>"` (with the stripped spec message, or
`"missing env: <name>"` when it is blank). -/
def mkConfigErrMsg (nm m : LC) : LC :=
  ('r' :: 'e' :: 'q' :: 'u' :: 'i' :: 'r' :: 'e' :: 'd' :: ' ' ::
    'e' :: 'n' :: 'v' :: ' ' :: 'm' :: 'i' :: 's' :: 's' :: 'i' :: 'n' ::
    'g' :: ':' :: ' ' :: nm) ++
  (',' :: ' ' ::
    (if trimL m = [] then
      ('m' :: 'i' :: 's' :: 's' :: 'i' :: 'n' :: 'g' :: ' ' :: 'e' :: 'n' ::
        'v' :: ':' :: ' ' :: nm)
     else trimL m))

/-- The `repl` closure of `_interpolate_str`: an environment hit substitutes
the value; otherwise no spec gives the empty string, a `:?`-spec raises
`ConfigError`, and a plain `:`-spec gives its body as the default. -/
def applyRepl (env : LC → Option LC) (nm : LC) (sp : Option LC) :
    Except LC LC :=
  match env nm with
  | some raw => .ok raw
  | none =>
    match sp with
    | none => .ok []
    | some s =>
      match s.drop 1 with
      | [] => .ok []
      | b :: m => if b = '?' then .error (mkConfigErrMsg nm m) else .ok (b :: m)

/-- The left-to-right non-overlapping substitution loop of `re.sub`: at each
position try `_ENV_PATTERN`; on a match emit `repl`'s output and continue
after the match, otherwise emit the character and advance by one. -/
def subGo (env : LC → Option LC) : LC → Except LC LC
  | [] => .ok []
  | c :: cs =>
    match h : tryMatch (c :: cs) with
    | some (nm, sp, rest) =>
      match applyRepl env nm sp with
      | .ok r =>
        match subGo env rest with
        | .ok tail => .ok (r ++ tail)
        | .error e => .error e
      | .error e => .error e
    | none =>
      match subGo env cs with
      | .ok tail => .ok (c :: tail)
      | .error e => .error e
  termination_by l => l.length
  decreasing_by
  · exact tryMatch_rest_lt h
  · simp

/-- `ConfigManager._interpolate_str`: the escape / substitute / restore
pipeline on one string. -/
def interpolate_str (env : LC → Option LC) (s : LC) : Except LC LC :=
  if s = [] then .ok s
  else
    match subGo env (replaceAll escPat escMark s) with
    | .ok out => .ok (replaceAll escMark dollarBrace out)
    | .error e => .error e

mutual
/-- `ConfigManager._interpolate_inplace`: interpolate every string reachable
through dicts and lists, leaving other scalars unchanged. -/
def interpolate_inplace (env : LC → Option LC) : PVal → Except LC PVal
  | .vstr s =>
    match interpolate_str env s with
    | .ok r => .ok (.vstr r)
    | .error e => .error e
  | .vlist xs =>
    match interpolate_list env xs with
    | .ok ys => .ok (.vlist ys)
    | .error e => .error e
  | .vdict kvs =>
    match interpolate_dict env kvs with
    | .ok rs => .ok (.vdict rs)
    | .error e => .error e
  | v => .ok v

def interpolate_list (env : LC → Option LC) : List PVal → Except LC (List PVal)
  | [] => .ok []
  | x :: xs =>
    match interpolate_inplace env x with
    | .ok y =>
      match interpolate_list env xs with
      | .ok ys => .ok (y :: ys)
      | .error e => .error e
    | .error e => .error e

def interpolate_dict (env : LC → Option LC) :
    List (LC × PVal) → Except LC (List (LC × PVal))
  | [] => .ok []
  | (k, v) :: rest =>
    match interpolate_inplace env v with
    | .ok w =>
      match interpolate_dict env rest with
      | .ok ws => .ok ((k, w) :: ws)
      | .error e => .error e
    | .error e => .error e
end

end ConfigManager

/-! ## Proof machinery: ExcelUtil base-26 bijective numerals -/

namespace ExcelUtil

/-- The letter value `ord(ch) - ord('A') + 1` of a column character. -/
def val26 (c : Char) : Nat := c.toNat - 64

/-- Value of a least-significant-first digit list. -/
def lsdVal : LC → Nat
  | [] => 0
  | c :: cs => val26 c + 26 * lsdVal cs

/-- Value of a most-significant-first digit list under an accumulator, the
shape computed by `indexLoop`. -/
def msdVal (acc : Nat) : LC → Nat
  | [] => acc
  | c :: cs => msdVal (acc * 26 + val26 c) cs

theorem msdVal_nil (acc : Nat) : msdVal acc [] = acc := rfl

theorem msdVal_cons (acc : Nat) (c : Char) (cs : LC) :
    msdVal acc (c :: cs) = msdVal (acc * 26 + val26 c) cs := rfl

theorem char_toNat_ofNat {n : Nat} (h : n < 55296) : (Char.ofNat n).toNat = n := by
  have hv : n.isValidChar := Or.inl h
  rw [Char.ofNat, dif_pos hv]
  simp [Char.ofNatAux, Char.toNat, UInt32.toNat]

theorem nameDigits_mem_upper : ∀ n, ∀ c ∈ nameDigits n, isUpperAZ c = true := by
  intro n
  induction n using Nat.strong_induction_on with
  | _ n ih =>
    match n with
    | 0 => intro c hc; simp [nameDigits] at hc
    | m + 1 =>
      intro c hc
      rw [nameDigits] at hc
      rcases List.mem_cons.mp hc with hh | ht
      · subst hh
        have hm : m % 26 < 26 := Nat.mod_lt _ (by omega)
        have := @char_toNat_ofNat (m % 26 + 65) (by omega)
        simp [isUpperAZ, this]
        omega
      · exact ih (m / 26) (Nat.lt_succ_of_le (Nat.div_le_self m 26)) c ht

theorem lsdVal_nameDigits : ∀ n, lsdVal (nameDigits n) = n := by
  intro n
  induction n using Nat.strong_induction_on with
  | _ n ih =>
    match n with
    | 0 => simp [nameDigits, lsdVal]
    | m + 1 =>
      rw [nameDigits]
      have hdm : Nat.div m 26 < m + 1 := Nat.lt_succ_of_le (Nat.div_le_self m 26)
      have hrec := ih (m / 26) hdm
      have hm : m % 26 < 26 := Nat.mod_lt _ (by omega)
      have hv := @char_toNat_ofNat (m % 26 + 65) (by omega)
      have hdmod := Nat.div_add_mod m 26
      simp only [lsdVal, val26, hv, hrec]
      omega

theorem nameDigits_lsdVal :
    ∀ cs : LC, (∀ c ∈ cs, isUpperAZ c = true) → nameDigits (lsdVal cs) = cs := by
  intro cs
  induction cs with
  | nil => intro _; simp [lsdVal, nameDigits]
  | cons c cs ih =>
    intro hall
    have hc : isUpperAZ c = true := hall c (List.mem_cons_self c cs)
    have hc' : 65 ≤ c.toNat ∧ c.toNat ≤ 90 := by
      simpa [isUpperAZ, Bool.and_eq_true, decide_eq_true_eq] using hc
    have hv1 : 1 ≤ val26 c := by simp only [val26]; omega
    have hk : lsdVal (c :: cs) = (val26 c - 1 + 26 * lsdVal cs) + 1 := by
      simp only [lsdVal]; omega
    rw [hk, nameDigits]
    have hmod : (val26 c - 1 + 26 * lsdVal cs) % 26 = val26 c - 1 := by
      rw [Nat.add_mul_mod_self_left]
      exact Nat.mod_eq_of_lt (by simp only [val26]; omega)
    have hdiv : (val26 c - 1 + 26 * lsdVal cs) / 26 = lsdVal cs := by
      rw [Nat.add_mul_div_left _ _ (by omega)]
      rw [Nat.div_eq_of_lt (by simp only [val26]; omega)]
      omega
    rw [hmod, hdiv, ih (fun d hd => hall d (List.mem_cons_of_mem c hd))]
    have hch : val26 c - 1 + 65 = c.toNat := by simp only [val26]; omega
    rw [hch, Char.ofNat_toNat]

theorem lsdVal_append_singleton (xs : LC) (c : Char) :
    lsdVal (xs ++ [c]) = lsdVal xs + 26 ^ xs.length * val26 c := by
  induction xs with
  | nil => simp [lsdVal]
  | cons x xs ih =>
    rw [List.cons_append]
    simp only [lsdVal]
    rw [ih, List.length_cons]
    ring

theorem msdVal_eq : ∀ (cs : LC) (acc : Nat),
    msdVal acc cs = acc * 26 ^ cs.length + lsdVal cs.reverse := by
  intro cs
  induction cs with
  | nil => intro acc; simp [msdVal_nil, lsdVal]
  | cons c cs ih =>
    intro acc
    rw [msdVal_cons, ih, List.reverse_cons, lsdVal_append_singleton,
      List.length_reverse, List.length_cons]
    ring

theorem indexLoop_nil (acc : Nat) : indexLoop acc [] = .ok acc := rfl

theorem indexLoop_cons (acc : Nat) (c : Char) (cs : LC) :
    indexLoop acc (c :: cs) =
      if isUpperAZ c then indexLoop (acc * 26 + (c.toNat - 64)) cs
      else .error .valueError := rfl

theorem indexLoop_ok : ∀ (cs : LC) (acc : Nat), (∀ c ∈ cs, isUpperAZ c = true) →
    indexLoop acc cs = .ok (msdVal acc cs) := by
  intro cs
  induction cs with
  | nil => intro acc _; rw [indexLoop_nil, msdVal_nil]
  | cons c cs ih =>
    intro acc hall
    have hc : isUpperAZ c = true := hall c (List.mem_cons_self c cs)
    rw [indexLoop_cons, if_pos hc, msdVal_cons]
    exact ih _ (fun d hd => hall d (List.mem_cons_of_mem c hd))

theorem indexLoop_error_iff : ∀ (cs : LC) (acc : Nat),
    (∃ e, indexLoop acc cs = .error e) ↔ cs.all isUpperAZ = false := by
  intro cs
  induction cs with
  | nil =>
    intro acc
    constructor
    · rintro ⟨e, he⟩; rw [indexLoop_nil] at he; cases he
    · intro h; simp [List.all_nil] at h
  | cons c cs ih =>
    intro acc
    by_cases hc : isUpperAZ c = true
    · rw [indexLoop_cons, if_pos hc]
      simp only [List.all_cons, hc, Bool.true_and]
      exact ih _
    · have hc' : isUpperAZ c = false := Bool.eq_false_iff.mpr hc
      rw [indexLoop_cons, if_neg hc]
      simp only [List.all_cons, hc']
      simp

theorem pyUpperChar_fix {c : Char} (h : isUpperAZ c = true) : pyUpperChar c = c := by
  have hc : 65 ≤ c.toNat ∧ c.toNat ≤ 90 := by
    simpa [isUpperAZ, Bool.and_eq_true, decide_eq_true_eq] using h
  simp only [pyUpperChar]
  rw [if_neg]
  omega

theorem map_pyUpperChar_fix {l : LC} (h : ∀ c ∈ l, isUpperAZ c = true) :
    l.map pyUpperChar = l := by
  induction l with
  | nil => rfl
  | cons c cs ih =>
    simp only [List.map_cons]
    rw [pyUpperChar_fix (h c (List.mem_cons_self c cs)),
      ih (fun d hd => h d (List.mem_cons_of_mem c hd))]

theorem lsdVal_pos {cs : LC} (hne : cs ≠ []) (h : ∀ c ∈ cs, isUpperAZ c = true) :
    1 ≤ lsdVal cs := by
  match cs with
  | [] => exact absurd rfl hne
  | c :: cs =>
    have hc : 65 ≤ c.toNat ∧ c.toNat ≤ 90 := by
      simpa [isUpperAZ, Bool.and_eq_true, decide_eq_true_eq] using
        h c (List.mem_cons_self c cs)
    simp only [lsdVal, val26]
    omega

theorem nameDigits_zero : nameDigits 0 = [] := by rw [nameDigits]

theorem nameDigits_succ (n : Nat) :
    nameDigits (n + 1) = Char.ofNat (n % 26 + 65) :: nameDigits (n / 26) := by
  rw [nameDigits]

end ExcelUtil

/-! ## Proof machinery: ConfigManager interpolation -/

namespace ConfigManager

theorem replaceAll_nil (pat rep : LC) : replaceAll pat rep [] = [] := by
  rw [replaceAll]

theorem replaceAll_cons (pat rep : LC) (c : Char) (cs : LC) :
    replaceAll pat rep (c :: cs) =
      if pat.isPrefixOf (c :: cs) ∧ pat ≠ [] then
        rep ++ replaceAll pat rep (cs.drop (pat.length - 1))
      else c :: replaceAll pat rep cs := by
  rw [replaceAll]

theorem hasSub_false_head {p : Char} {ps l : LC} (h : p ∉ l) :
    hasSub (p :: ps) l = false := by
  induction l with
  | nil => rfl
  | cons c cs ih =>
    have hpc : p ≠ c := fun he => h (he ▸ List.mem_cons_self c cs)
    have hrec := ih (fun hm => h (List.mem_cons_of_mem c hm))
    simp only [hasSub, hrec, Bool.or_false, List.isPrefixOf]
    simp [beq_eq_false_iff_ne, hpc]

theorem replaceAll_of_hasSub_false {pat rep l : LC}
    (h : hasSub pat l = false) : replaceAll pat rep l = l := by
  induction l with
  | nil => exact replaceAll_nil pat rep
  | cons c cs ih =>
    simp only [hasSub, Bool.or_eq_false_iff] at h
    rw [replaceAll_cons, if_neg (by simp [h.1])]
    rw [ih h.2]

theorem replaceAll_append_pat {pat : LC} (hne : pat ≠ []) (rep tail : LC) :
    replaceAll pat rep (pat ++ tail) = rep ++ replaceAll pat rep tail := by
  match pat, hne with
  | p :: ps, _ =>
    rw [List.cons_append, replaceAll_cons,
      if_pos ⟨List.isPrefixOf_iff_prefix.mpr ⟨tail, by simp⟩, by simp⟩]
    congr 1
    simp only [List.length_cons, Nat.add_sub_cancel]
    rw [List.drop_left]

theorem takeWhile_append_of_all {p : Char → Bool} :
    ∀ {xs : LC} {y : Char} {rest : LC}, (∀ x ∈ xs, p x = true) → p y = false →
      (xs ++ y :: rest).takeWhile p = xs ∧
        (xs ++ y :: rest).dropWhile p = y :: rest := by
  intro xs
  induction xs with
  | nil =>
    intro y rest _ hy
    simp [List.takeWhile_cons, List.dropWhile_cons, hy]
  | cons x xs ih =>
    intro y rest hall hy
    have hx : p x = true := hall x (List.mem_cons_self x xs)
    have h2 := @ih y rest (fun a ha => hall a (List.mem_cons_of_mem x ha)) hy
    simp [List.takeWhile_cons, List.dropWhile_cons, hx, h2.1, h2.2]

theorem validName_destruct {nm : LC} (h : validName nm = true) :
    ∃ c cs, nm = c :: cs ∧ isNameStartChar c = true ∧
      ∀ x ∈ cs, isNameChar x = true := by
  match nm with
  | [] => cases h
  | c :: cs =>
    simp only [validName, Bool.and_eq_true, List.all_eq_true] at h
    exact ⟨c, cs, rfl, h.1, h.2⟩

theorem isNameStartChar_isNameChar {c : Char} (h : isNameStartChar c = true) :
    isNameChar c = true := by
  simp only [isNameStartChar, Bool.or_eq_true] at h
  rcases h with h | h
  · simp [isNameChar, Char.isAlphanum, h]
  · simp [isNameChar, h]

theorem validName_all_isNameChar {nm : LC} (h : validName nm = true) :
    ∀ c ∈ nm, isNameChar c = true := by
  obtain ⟨c, cs, rfl, hc, hcs⟩ := validName_destruct h
  intro x hx
  rcases List.mem_cons.mp hx with rfl | hx
  · exact isNameStartChar_isNameChar hc
  · exact hcs x hx

theorem isNameChar_not_special {c : Char} (h : isNameChar c = true) :
    c ≠ '\\' ∧ c ≠ '$' ∧ c ≠ '{' ∧ c ≠ '}' ∧ c ≠ ':' ∧ c ≠ '_' ∨ c = '_' := by
  by_cases hu : c = '_'
  · right; exact hu
  · left
    refine ⟨?_, ?_, ?_, ?_, ?_, hu⟩ <;>
      (rintro rfl; revert h; decide)

theorem isNameChar_ne_brace {c : Char} (h : isNameChar c = true) : c ≠ '}' := by
  rintro rfl; revert h; decide

theorem isNameChar_ne_colon {c : Char} (h : isNameChar c = true) : c ≠ ':' := by
  rintro rfl; revert h; decide

theorem isNameChar_ne_backslash {c : Char} (h : isNameChar c = true) :
    c ≠ '\\' := by
  rintro rfl; revert h; decide

theorem isNameChar_ne_dollar {c : Char} (h : isNameChar c = true) : c ≠ '$' := by
  rintro rfl; revert h; decide

theorem tryMatch_none_of_ne {c : Char} (cs : LC) (hne : c ≠ '$') :
    tryMatch (c :: cs) = none := by
  match cs with
  | [] => rfl
  | [b] => rfl
  | b :: d :: ds =>
    simp only [tryMatch]
    rw [if_neg]
    rintro ⟨h1, -⟩
    exact hne h1

theorem matchSuffix_brace (ds : LC) : matchSuffix ('}' :: ds) = some (none, ds) :=
  rfl

theorem matchSuffix_colon (ds : LC) :
    matchSuffix (':' :: ds) =
      (match ds.dropWhile (fun ch => ch ≠ '}') with
       | [] => none
       | _ :: es => some (some (':' :: ds.takeWhile (fun ch => ch ≠ '}')), es)) :=
  rfl

theorem tryMatch_plain {nm : LC} (hnm : validName nm = true) (tail : LC) :
    tryMatch ('$' :: '{' :: (nm ++ '}' :: tail)) = some (nm, none, tail) := by
  obtain ⟨c, cs, rfl, hc, hcs⟩ := validName_destruct hnm
  have htw := @takeWhile_append_of_all isNameChar cs '}' tail hcs (by decide)
  show tryMatch ('$' :: '{' :: c :: (cs ++ '}' :: tail)) = _
  simp only [tryMatch]
  rw [if_pos (by simp [hc]), htw.2, matchSuffix_brace]
  simp [htw.1]

theorem tryMatch_with_spec {nm : LC} (hnm : validName nm = true)
    {body : LC} (hbody : '}' ∉ body) (tail : LC) :
    tryMatch ('$' :: '{' :: (nm ++ ':' :: (body ++ '}' :: tail))) =
      some (nm, some (':' :: body), tail) := by
  obtain ⟨c, cs, rfl, hc, hcs⟩ := validName_destruct hnm
  have htw := @takeWhile_append_of_all isNameChar cs ':' (body ++ '}' :: tail)
    hcs (by decide)
  have hbody' : ∀ x ∈ body, (fun ch => decide (ch ≠ '}')) x = true := by
    intro x hx
    simp only [decide_eq_true_eq]
    exact fun he => hbody (he ▸ hx)
  have htw2 := @takeWhile_append_of_all (fun ch => decide (ch ≠ '}')) body '}'
    tail hbody' (by decide)
  show tryMatch ('$' :: '{' :: c :: (cs ++ ':' :: (body ++ '}' :: tail))) = _
  simp only [tryMatch]
  rw [if_pos (by simp [hc]), htw.2, matchSuffix_colon, htw2.2, htw2.1]
  simp [htw.1]

theorem subGo_nil (env : LC → Option LC) : subGo env [] = .ok [] := by
  rw [subGo]

theorem subGo_hit {env : LC → Option LC} {c : Char} {cs nm rest : LC}
    {sp : Option LC} (h : tryMatch (c :: cs) = some (nm, sp, rest)) :
    subGo env (c :: cs) =
      (match applyRepl env nm sp with
       | .ok r =>
         match subGo env rest with
         | .ok tail => .ok (r ++ tail)
         | .error e => .error e
       | .error e => .error e) := by
  rw [subGo, h]

theorem subGo_skip {env : LC → Option LC} {c : Char} {cs : LC}
    (h : tryMatch (c :: cs) = none) :
    subGo env (c :: cs) =
      (match subGo env cs with
       | .ok tail => .ok (c :: tail)
       | .error e => .error e) := by
  rw [subGo, h]

theorem subGo_nodollar {env : LC → Option LC} :
    ∀ {l : LC}, (∀ c ∈ l, c ≠ '$') → subGo env l = .ok l := by
  intro l
  induction l with
  | nil => intro _; exact subGo_nil env
  | cons c cs ih =>
    intro h
    rw [subGo_skip (tryMatch_none_of_ne cs (h c (List.mem_cons_self c cs)))]
    rw [ih (fun x hx => h x (List.mem_cons_of_mem c hx))]

theorem subGo_append_nodollar {env : LC → Option LC} :
    ∀ {pre : LC} {rest : LC}, (∀ c ∈ pre, c ≠ '$') →
      subGo env (pre ++ rest) =
        (match subGo env rest with
         | .ok tail => .ok (pre ++ tail)
         | .error e => .error e) := by
  intro pre
  induction pre with
  | nil =>
    intro rest _
    cases h : subGo env rest <;> simp [h]
  | cons c cs ih =>
    intro rest h
    rw [List.cons_append,
      subGo_skip (tryMatch_none_of_ne _ (h c (List.mem_cons_self c cs))),
      ih (fun x hx => h x (List.mem_cons_of_mem c hx))]
    cases subGo env rest <;> simp

theorem hasSub_escPat_false {l : LC} (h : '\\' ∉ l) :
    hasSub escPat l = false :=
  hasSub_false_head h

theorem hasSub_escMark_false {l : LC} (h : '_' ∉ l) :
    hasSub escMark l = false :=
  hasSub_false_head h

theorem escMark_nodollar : ∀ c ∈ escMark, c ≠ '$' := by decide

theorem applyRepl_hit {env : LC → Option LC} {nm v : LC} (h : env nm = some v)
    (sp : Option LC) : applyRepl env nm sp = .ok v := by
  unfold applyRepl
  rw [h]

theorem applyRepl_unset_nospec {env : LC → Option LC} {nm : LC}
    (h : env nm = none) : applyRepl env nm none = .ok [] := by
  unfold applyRepl
  rw [h]

theorem applyRepl_unset_default {env : LC → Option LC} {nm dflt : LC}
    (h : env nm = none) (hq : dflt.head? ≠ some '?') :
    applyRepl env nm (some (':' :: dflt)) = .ok dflt := by
  unfold applyRepl
  rw [h]
  cases dflt with
  | nil => rfl
  | cons b m =>
    have hb : b ≠ '?' := by
      intro he
      exact hq (by rw [he]; rfl)
    simp only [List.drop_succ_cons, List.drop_zero]
    rw [if_neg hb]

theorem applyRepl_unset_required {env : LC → Option LC} {nm : LC}
    (h : env nm = none) (msg : LC) :
    applyRepl env nm (some (':' :: '?' :: msg)) =
      .error (mkConfigErrMsg nm msg) := by
  unfold applyRepl
  rw [h]
  simp

end ConfigManager

/-! ## Proof machinery: XCache lazy initialization -/

theorem init_client_of_not_client {o : CacheOracle} {st : XCacheObj}
    (h : st.client = false) :
    XCache.init_client o st = ({ st with client := true }, [.connect], o.ping_ok) := by
  unfold XCache.init_client
  rw [if_pos h]

theorem init_client_of_client {o : CacheOracle} {st : XCacheObj}
    (h : st.client = true) : XCache.init_client o st = (st, [], true) := by
  unfold XCache.init_client
  rw [if_neg (by simp [h])]

/-- An oracle and an already-initialized object used as concrete inputs: the
connection is up, yet every client call raises `redis.RedisError` code 3. -/
def errOracle : CacheOracle :=
  { ping_ok := true, get_result := .error ⟨3⟩, set_result := .error ⟨3⟩,
    del_result := .error ⟨3⟩, exists_result := .error ⟨3⟩,
    incr_result := .error ⟨3⟩, decr_result := .error ⟨3⟩ }

def initializedObj : XCacheObj :=
  { host := [], port := 0, username := [], password := [], db := 0, client := true }

/-- A concrete environment for witnesses: `VAR` is set to `val`, everything
else is unset. -/
def envVAR : LC → Option LC :=
  fun n => if n = ['V', 'A', 'R'] then some ['v', 'a', 'l'] else none

/-- An oracle whose store holds a msgpack list under the requested key. -/
def listOracle : CacheOracle :=
  { ping_ok := true, get_result := .ok (some (.vlist [])),
    set_result := .ok (some true), del_result := .ok 1, exists_result := .ok 1,
    incr_result := .ok 1, decr_result := .ok 1 }

/-- An oracle whose store holds the non-numeric string `"x"`. -/
def strOracle : CacheOracle :=
  { ping_ok := true, get_result := .ok (some (.vstr ['x'])),
    set_result := .ok (some true), del_result := .ok 1, exists_result := .ok 1,
    incr_result := .ok 1, decr_result := .ok 1 }

/-! ## Claims -/

/-- C9: Excel column conversion round-trips: converting an index to a name
and back is the identity, converting a valid name to an index and back is
the identity, `column_index_by_name` raises `ValueError` exactly when the
upper-cased input has a character outside `'A'..'Z'`, and
`column_name_by_index` raises `ValueError` exactly when the index is
negative. -/
theorem claim_C9 :
    (∀ (i : Int) (s : LC), ExcelUtil.column_name_by_index i = .ok s →
      ExcelUtil.column_index_by_name s = .ok i) ∧
    (∀ s : LC, s ≠ [] → (∀ c ∈ s, ExcelUtil.isUpperAZ c = true) →
      ∃ i, ExcelUtil.column_index_by_name s = .ok i ∧
        ExcelUtil.column_name_by_index i = .ok s) ∧
    (∀ s : LC, (∃ e, ExcelUtil.column_index_by_name s = .error e) ↔
      (s.map pyUpperChar).all ExcelUtil.isUpperAZ = false) ∧
    (∀ i : Int, (∃ e, ExcelUtil.column_name_by_index i = .error e) ↔ i < 0) := by
  refine ⟨?_, ?_, ?_, ?_⟩
  · intro i s hok
    unfold ExcelUtil.column_name_by_index at hok
    by_cases hi : i < 0
    · rw [if_pos hi] at hok; cases hok
    · rw [if_neg hi] at hok
      injection hok with hs
      have hall : ∀ c ∈ s, ExcelUtil.isUpperAZ c = true := by
        intro c hc
        rw [← hs, List.mem_reverse] at hc
        exact ExcelUtil.nameDigits_mem_upper _ c hc
      unfold ExcelUtil.column_index_by_name
      rw [ExcelUtil.map_pyUpperChar_fix hall, ExcelUtil.indexLoop_ok s 0 hall,
        ExcelUtil.msdVal_eq]
      rw [← hs, List.reverse_reverse, ExcelUtil.lsdVal_nameDigits]
      simp only [zero_mul, zero_add]
      have : ¬ i < 0 := hi
      congr 1
      omega
  · intro s hne hall
    have hfix := ExcelUtil.map_pyUpperChar_fix hall
    have hrev : ∀ c ∈ s.reverse, ExcelUtil.isUpperAZ c = true := by
      intro c hc; exact hall c (List.mem_reverse.mp hc)
    have hL : 1 ≤ ExcelUtil.lsdVal s.reverse :=
      ExcelUtil.lsdVal_pos (by simpa using hne) hrev
    refine ⟨(ExcelUtil.msdVal 0 s : Int) - 1, ?_, ?_⟩
    · unfold ExcelUtil.column_index_by_name
      rw [hfix, ExcelUtil.indexLoop_ok s 0 hall]
    · unfold ExcelUtil.column_name_by_index
      rw [ExcelUtil.msdVal_eq]
      simp only [zero_mul, zero_add]
      rw [if_neg (by omega)]
      have htn : ((ExcelUtil.lsdVal s.reverse : Int) - 1).toNat + 1 =
          ExcelUtil.lsdVal s.reverse := by omega
      rw [htn, ExcelUtil.nameDigits_lsdVal _ hrev, List.reverse_reverse]
  · intro s
    unfold ExcelUtil.column_index_by_name
    cases h : ExcelUtil.indexLoop 0 (s.map pyUpperChar) with
    | ok a =>
      constructor
      · rintro ⟨e, he⟩; cases he
      · intro hall
        obtain ⟨e, he⟩ := (ExcelUtil.indexLoop_error_iff (s.map pyUpperChar) 0).mpr hall
        rw [h] at he; cases he
    | error e =>
      constructor
      · intro _; exact (ExcelUtil.indexLoop_error_iff (s.map pyUpperChar) 0).mp ⟨e, h⟩
      · intro _; exact ⟨e, rfl⟩
  · intro i
    unfold ExcelUtil.column_name_by_index
    by_cases hi : i < 0
    · rw [if_pos hi]
      exact ⟨fun _ => hi, fun _ => ⟨.valueError, rfl⟩⟩
    · rw [if_neg hi]
      constructor
      · rintro ⟨e, he⟩; cases he
      · intro h; exact absurd h hi

theorem claim_C9_witness :
    ExcelUtil.column_index_by_name ['A'] = .ok 0 ∧
    (∃ i, ExcelUtil.column_index_by_name ['A', 'B'] = .ok i ∧
      ExcelUtil.column_name_by_index i = .ok ['A', 'B']) := by
  constructor
  · refine claim_C9.1 0 ['A'] ?_
    unfold ExcelUtil.column_name_by_index
    rw [if_neg (by omega)]
    have h1 : (0 : Int).toNat + 1 = 1 := rfl
    rw [h1, ExcelUtil.nameDigits_succ]
    norm_num [ExcelUtil.nameDigits_zero]
  · exact claim_C9.2.1 ['A', 'B'] (by decide) (by decide)

/-- C4: when an `XCache` instance with the requested name is already
registered, `XCacheFactory.create` returns it unchanged, ignoring the new
connection parameters, so two `create` calls with one name return the same
instance. -/
theorem claim_C4 (s : XCacheFactorySt) (name : LC) (p p' : XCacheParams) :
    (∀ inst, alookup name s.instances = some inst →
      XCacheFactory.create s name p = (s, inst)) ∧
    (XCacheFactory.create (XCacheFactory.create s name p).1 name p').2 =
      (XCacheFactory.create s name p).2 := by
  constructor
  · intro inst h
    simp [XCacheFactory.create, h]
  · cases h : alookup name s.instances with
    | some inst => simp [XCacheFactory.create, h]
    | none => simp [XCacheFactory.create, h, alookup]

theorem claim_C4_witness :
    XCacheFactory.create ⟨[(['a'], ⟨7, ⟨['h'], 1, [], [], 0⟩⟩)], 8⟩ ['a']
        ⟨['x'], 2, [], [], 1⟩ =
      (⟨[(['a'], ⟨7, ⟨['h'], 1, [], [], 0⟩⟩)], 8⟩, ⟨7, ⟨['h'], 1, [], [], 0⟩⟩) :=
  (claim_C4 ⟨[(['a'], ⟨7, ⟨['h'], 1, [], [], 0⟩⟩)], 8⟩ ['a'] ⟨['x'], 2, [], [], 1⟩
    ⟨['x'], 2, [], [], 1⟩).1 ⟨7, ⟨['h'], 1, [], [], 0⟩⟩ (by decide)

/-- C7: every operation of the legacy singleton `XCache` sends the Redis
client exactly `prefix + key` in place of the caller's key. -/
theorem claim_C7 (o : CacheOracle) (i : LegacyInst) (key : LC) (v : PVal)
    (e : Option Nat) (am : Int) (d : PVal) :
    (LegacyXCache.set o (some i) key v e).1 =
      [.callSet (i.keyPre ++ key) v (e.getD i.expire)] ∧
    (LegacyXCache.get o (some i) key d).1 = [.callGet (i.keyPre ++ key)] ∧
    (LegacyXCache.delete o (some i) key).1 = [.callDel (i.keyPre ++ key)] ∧
    (LegacyXCache.existsKey o (some i) key).1 = [.callExists (i.keyPre ++ key)] ∧
    (LegacyXCache.increment o (some i) key am).1 = [.callIncr (i.keyPre ++ key) am] ∧
    (LegacyXCache.decrement o (some i) key am).1 = [.callDecr (i.keyPre ++ key) am] := by
  refine ⟨?_, ?_, ?_, ?_, ?_, ?_⟩
  · cases h : o.set_result <;> simp [LegacyXCache.set, h]
  · cases h : o.get_result with
    | error er => simp [LegacyXCache.get, h]
    | ok w => cases w <;> simp [LegacyXCache.get, h]
  · cases h : o.del_result <;> simp [LegacyXCache.delete, h]
  · cases h : o.exists_result <;> simp [LegacyXCache.existsKey, h]
  · cases h : o.incr_result <;> simp [LegacyXCache.increment, h]
  · cases h : o.decr_result <;> simp [LegacyXCache.decrement, h]

/-- C2 counterexample: with the connection up and every client call raising
`redis.RedisError` code 3, `XCache.get`, `XCache.set` and `XCache.delete`
return their fallback values instead of passing the exception through. -/
theorem claim_C2_counterexample :
    (XCache.get errOracle initializedObj ['k'] (.vint 7)).2.2 = .ret (.vint 7) ∧
    (XCache.set errOracle initializedObj ['k'] (.vint 1) 5).2.2 = .ret (some false) ∧
    (XCache.delete errOracle initializedObj ['k']).2.2 = .ret (some 0) ∧
    (XCache.get errOracle initializedObj ['k'] (.vint 7)).2.2 ≠ .exn ⟨3⟩ ∧
    (XCache.set errOracle initializedObj ['k'] (.vint 1) 5).2.2 ≠ .exn ⟨3⟩ ∧
    (XCache.delete errOracle initializedObj ['k']).2.2 ≠ .exn ⟨3⟩ := by
  refine ⟨rfl, rfl, rfl, ?_, ?_, ?_⟩ <;>
    simp [XCache.get, XCache.set, XCache.delete, XCache.init_client,
      errOracle, initializedObj]

/-- C2 (amended): when the redis client raises `redis.RedisError` during an
operation, the wrapper catches it (logging) and returns the operation's
fallback value — `get` the default, `set` `False`, `delete` `0` — rather
than passing the exception through. -/
theorem claim_C2 (o : CacheOracle) (st : XCacheObj) (k : LC) (d v : PVal)
    (exp : Nat) (e1 e2 e3 : RedisErr)
    (hp : o.ping_ok = true)
    (hg : o.get_result = .error e1)
    (hs : o.set_result = .error e2)
    (hd : o.del_result = .error e3) :
    (XCache.get o st k d).2.2 = .ret d ∧
    (XCache.set o st k v exp).2.2 = .ret (some false) ∧
    (XCache.delete o st k).2.2 = .ret (some 0) := by
  by_cases hc : st.client = true
  · refine ⟨?_, ?_, ?_⟩ <;>
      simp [XCache.get, XCache.set, XCache.delete, init_client_of_client hc,
        hg, hs, hd]
  · have hc' : st.client = false := by
      cases h : st.client
      · rfl
      · exact absurd h hc
    refine ⟨?_, ?_, ?_⟩ <;>
      simp [XCache.get, XCache.set, XCache.delete, init_client_of_not_client hc',
        hp, hg, hs, hd]

theorem claim_C2_witness :
    (XCache.get errOracle initializedObj ['j'] (.vint 1)).2.2 = .ret (.vint 1) ∧
    (XCache.set errOracle initializedObj ['j'] .vnone 9).2.2 = .ret (some false) ∧
    (XCache.delete errOracle initializedObj ['j']).2.2 = .ret (some 0) :=
  claim_C2 errOracle initializedObj ['j'] (.vint 1) .vnone 9 ⟨3⟩ ⟨3⟩ ⟨3⟩
    rfl rfl rfl rfl

/-- C5: `XCache.__init__` leaves the client unset; the first cache operation
connects via `_init_client` (and an operation on an initialized object makes
no connection attempt); and when the lazy initialization fails every
operation returns its failure value — `get` the default, `set` `False`,
`delete`, `increment` and `decrement` `None` — instead of raising. -/
theorem claim_C5 (host : LC) (port : Nat) (user pw : LC) (db : Nat)
    (o : CacheOracle) (st : XCacheObj) (k : LC) (d v : PVal) (exp : Nat) (am : Int) :
    (XCache.init host port user pw db).client = false ∧
    (st.client = false →
      (XCache.get o st k d).2.1.head? = some .connect ∧
      (XCache.set o st k v exp).2.1.head? = some .connect ∧
      (XCache.delete o st k).2.1.head? = some .connect ∧
      (XCache.increment o st k am).2.1.head? = some .connect ∧
      (XCache.decrement o st k am).2.1.head? = some .connect) ∧
    (st.client = true →
      (∀ ev ∈ (XCache.get o st k d).2.1, ev.isConnect = false) ∧
      (∀ ev ∈ (XCache.set o st k v exp).2.1, ev.isConnect = false) ∧
      (∀ ev ∈ (XCache.delete o st k).2.1, ev.isConnect = false) ∧
      (∀ ev ∈ (XCache.increment o st k am).2.1, ev.isConnect = false) ∧
      (∀ ev ∈ (XCache.decrement o st k am).2.1, ev.isConnect = false)) ∧
    (st.client = false → o.ping_ok = false →
      (XCache.get o st k d).2.2 = .ret d ∧
      (XCache.set o st k v exp).2.2 = .ret (some false) ∧
      (XCache.delete o st k).2.2 = .ret none ∧
      (XCache.increment o st k am).2.2 = .ret none ∧
      (XCache.decrement o st k am).2.2 = .ret none) := by
  refine ⟨rfl, ?_, ?_, ?_⟩
  · intro hc
    refine ⟨?_, ?_, ?_, ?_, ?_⟩
    · cases hping : o.ping_ok <;>
        simp only [XCache.get, init_client_of_not_client hc, hping] <;>
        [simp;
         (cases o.get_result with
          | error e => simp
          | ok w => cases w <;> simp)]
    · cases hping : o.ping_ok <;>
        simp only [XCache.set, init_client_of_not_client hc, hping] <;>
        [simp; (cases o.set_result <;> simp)]
    · cases hping : o.ping_ok <;>
        simp only [XCache.delete, init_client_of_not_client hc, hping] <;>
        [simp; (cases o.del_result <;> simp)]
    · cases hping : o.ping_ok <;>
        simp only [XCache.increment, init_client_of_not_client hc, hping] <;>
        [simp; (cases o.incr_result <;> simp)]
    · cases hping : o.ping_ok <;>
        simp only [XCache.decrement, init_client_of_not_client hc, hping] <;>
        [simp; (cases o.decr_result <;> simp)]
  · intro hc
    refine ⟨?_, ?_, ?_, ?_, ?_⟩
    · simp only [XCache.get, init_client_of_client hc]
      cases o.get_result with
      | error e => simp [CEvent.isConnect]
      | ok w => cases w <;> simp [CEvent.isConnect]
    · simp only [XCache.set, init_client_of_client hc]
      cases o.set_result <;> simp [CEvent.isConnect]
    · simp only [XCache.delete, init_client_of_client hc]
      cases o.del_result <;> simp [CEvent.isConnect]
    · simp only [XCache.increment, init_client_of_client hc]
      cases o.incr_result <;> simp [CEvent.isConnect]
    · simp only [XCache.decrement, init_client_of_client hc]
      cases o.decr_result <;> simp [CEvent.isConnect]
  · intro hc hping
    refine ⟨?_, ?_, ?_, ?_, ?_⟩ <;>
      simp [XCache.get, XCache.set, XCache.delete, XCache.increment,
        XCache.decrement, init_client_of_not_client hc, hping]

theorem claim_C5_witness :
    (XCache.init ['h'] 6379 [] [] 0).client = false ∧
    (XCache.get errOracle (XCache.init ['h'] 6379 [] [] 0) ['k']
      (.vint 4)).2.1.head? = some .connect ∧
    (∀ ev ∈ (XCache.get errOracle initializedObj ['k'] (.vint 4)).2.1,
      ev.isConnect = false) := by
  have h := claim_C5 ['h'] 6379 [] [] 0 errOracle
    (XCache.init ['h'] 6379 [] [] 0) ['k'] (.vint 4) (.vint 4) 5 1
  have h2 := claim_C5 ['h'] 6379 [] [] 0 errOracle initializedObj ['k']
    (.vint 4) (.vint 4) 5 1
  exact ⟨h.1, (h.2.1 rfl).1, (h2.2.2.1 rfl).1⟩

/-- C8: `XCache.set` forwards its `expire` argument (milliseconds, default
3600000) unchanged to the redis client's `set` call as `px`, and no other
cache operation issues a client call carrying a key lifetime. -/
theorem claim_C8 (o : CacheOracle) (st : XCacheObj) (k : LC) (v d : PVal)
    (exp : Nat) (am : Int) :
    XCache.setDefaultExpire = 3600000 ∧
    (st.client = true ∨ o.ping_ok = true →
      (XCache.set o st k v exp).2.1 =
        (if st.client then [] else [.connect]) ++ [.callSet k v exp]) ∧
    (XCache.get o st k d).2.1.all (fun ev => !ev.carriesTTL) = true ∧
    (XCache.delete o st k).2.1.all (fun ev => !ev.carriesTTL) = true ∧
    (XCache.existsKey o st k).2.1.all (fun ev => !ev.carriesTTL) = true ∧
    (XCache.increment o st k am).2.1.all (fun ev => !ev.carriesTTL) = true ∧
    (XCache.decrement o st k am).2.1.all (fun ev => !ev.carriesTTL) = true := by
  refine ⟨rfl, ?_, ?_, ?_, ?_, ?_, ?_⟩
  · intro hup
    cases hc : st.client with
    | true =>
      rw [if_pos rfl]
      cases hv : o.set_result <;>
        simp [XCache.set, init_client_of_client hc, hv]
    | false =>
      have hping : o.ping_ok = true := by
        rcases hup with h | h
        · rw [hc] at h; cases h
        · exact h
      rw [if_neg (by simp)]
      cases hv : o.set_result <;>
        simp [XCache.set, init_client_of_not_client hc, hping, hv]
  · cases hc : st.client with
    | false =>
      cases hping : o.ping_ok <;>
        simp only [XCache.get, init_client_of_not_client hc, hping] <;>
        [simp [CEvent.carriesTTL];
         (cases o.get_result with
          | error e => simp [CEvent.carriesTTL]
          | ok w => cases w <;> simp [CEvent.carriesTTL])]
    | true =>
      simp only [XCache.get, init_client_of_client hc]
      cases o.get_result with
      | error e => simp [CEvent.carriesTTL]
      | ok w => cases w <;> simp [CEvent.carriesTTL]
  · cases hc : st.client with
    | false =>
      cases hping : o.ping_ok <;>
        simp only [XCache.delete, init_client_of_not_client hc, hping] <;>
        [simp [CEvent.carriesTTL]; (cases o.del_result <;> simp [CEvent.carriesTTL])]
    | true =>
      simp only [XCache.delete, init_client_of_client hc]
      cases o.del_result <;> simp [CEvent.carriesTTL]
  · cases hc : st.client with
    | false =>
      cases hping : o.ping_ok <;>
        simp only [XCache.existsKey, init_client_of_not_client hc, hping] <;>
        [simp [CEvent.carriesTTL]; (cases o.exists_result <;> simp [CEvent.carriesTTL])]
    | true =>
      simp only [XCache.existsKey, init_client_of_client hc]
      cases o.exists_result <;> simp [CEvent.carriesTTL]
  · cases hc : st.client with
    | false =>
      cases hping : o.ping_ok <;>
        simp only [XCache.increment, init_client_of_not_client hc, hping] <;>
        [simp [CEvent.carriesTTL]; (cases o.incr_result <;> simp [CEvent.carriesTTL])]
    | true =>
      simp only [XCache.increment, init_client_of_client hc]
      cases o.incr_result <;> simp [CEvent.carriesTTL]
  · cases hc : st.client with
    | false =>
      cases hping : o.ping_ok <;>
        simp only [XCache.decrement, init_client_of_not_client hc, hping] <;>
        [simp [CEvent.carriesTTL]; (cases o.decr_result <;> simp [CEvent.carriesTTL])]
    | true =>
      simp only [XCache.decrement, init_client_of_client hc]
      cases o.decr_result <;> simp [CEvent.carriesTTL]

theorem claim_C8_witness :
    (XCache.set errOracle initializedObj ['k'] (.vint 2) 1234).2.1 =
      [CEvent.callSet ['k'] (.vint 2) 1234] :=
  (claim_C8 errOracle initializedObj ['k'] (.vint 2) (.vint 2) 1234 1).2.1
    (Or.inl rfl)

theorem triggerListeners_events (s : XDBFactorySt) (name : LC) :
    (XDBFactory.triggerListeners s name).2 =
      if alookup name s.bundles = none then
        if name = XDBFactory.mainKey ∧ s.mainListener.isSome = true then
          [.mainCalled name]
        else if s.slaveListener.isSome = true then [.slaveCalled name] else []
      else [] := by
  unfold XDBFactory.triggerListeners
  by_cases h1 : alookup name s.bundles = none
  · rw [if_pos h1, if_pos h1]
    by_cases h2 : name = XDBFactory.mainKey ∧ s.mainListener.isSome = true
    · rw [if_pos h2, if_pos h2]
      obtain ⟨-, h2b⟩ := h2
      cases hf : s.mainListener with
      | some f => rfl
      | none => rw [hf] at h2b; cases h2b
    · rw [if_neg h2, if_neg h2]
      cases hg : s.slaveListener with
      | some g => simp [hg]
      | none => simp [hg]
  · rw [if_neg h1, if_neg h1]

theorem get_sync_db_trace (s : XDBFactorySt) (name : LC) (req : Bool) :
    (XDBFactory.get_sync_db s name req).2.1 =
      (XDBFactory.triggerListeners s name).2 := by
  unfold XDBFactory.get_sync_db
  cases h : alookup name (XDBFactory.triggerListeners s name).1 with
  | none => cases req <;> simp [h]
  | some b => cases hb : b.sync <;> cases req <;> simp [h, hb]

theorem get_async_db_trace (s : XDBFactorySt) (name : LC) (req : Bool) :
    (XDBFactory.get_async_db s name req).2.1 =
      (XDBFactory.triggerListeners s name).2 := by
  unfold XDBFactory.get_async_db
  cases h : alookup name (XDBFactory.triggerListeners s name).1 with
  | none => cases req <;> simp [h]
  | some b => cases hb : b.async_ <;> cases req <;> simp [h, hb]

/-- C3: `register_main_db` stores the listener and registers nothing; the
main listener fires in `get_sync_db` / `get_async_db` exactly when the
requested key is `"main"` with no bundle registered for it (and a main
listener injected), and an unregistered key other than `"main"` fires the
slave listener instead when one is injected. -/
theorem claim_C3 (s : XDBFactorySt) (f : LC → Bundles → Bundles)
    (name n : LC) (req : Bool) :
    ((XDBFactory.register_main_db s f).bundles = s.bundles ∧
     (XDBFactory.register_main_db s f).slaveListener = s.slaveListener) ∧
    (DBEvent.mainCalled n ∈ (XDBFactory.get_sync_db s name req).2.1 ↔
      n = name ∧ name = XDBFactory.mainKey ∧ alookup name s.bundles = none ∧
        s.mainListener.isSome = true) ∧
    (DBEvent.mainCalled n ∈ (XDBFactory.get_async_db s name req).2.1 ↔
      n = name ∧ name = XDBFactory.mainKey ∧ alookup name s.bundles = none ∧
        s.mainListener.isSome = true) ∧
    (name ≠ XDBFactory.mainKey → alookup name s.bundles = none →
      s.slaveListener.isSome = true →
      DBEvent.slaveCalled name ∈ (XDBFactory.get_sync_db s name req).2.1 ∧
      DBEvent.slaveCalled name ∈ (XDBFactory.get_async_db s name req).2.1) := by
  refine ⟨⟨rfl, rfl⟩, ?_, ?_, ?_⟩
  · rw [get_sync_db_trace, triggerListeners_events]
    by_cases h1 : alookup name s.bundles = none
    · by_cases h2 : name = XDBFactory.mainKey ∧ s.mainListener.isSome = true
      · rw [if_pos h1, if_pos h2]
        simp only [List.mem_singleton, DBEvent.mainCalled.injEq]
        constructor
        · intro hn; exact ⟨hn, h2.1, h1, h2.2⟩
        · intro hn; exact hn.1
      · rw [if_pos h1, if_neg h2]
        by_cases h3 : s.slaveListener.isSome = true
        · rw [if_pos h3]
          simp only [List.mem_singleton]
          constructor
          · intro hn; cases hn
          · rintro ⟨-, hb, -, hc⟩; exact absurd ⟨hb, hc⟩ h2
        · rw [if_neg h3]
          simp only [List.not_mem_nil, false_iff]
          rintro ⟨-, hb, -, hc⟩; exact absurd ⟨hb, hc⟩ h2
    · rw [if_neg h1]
      simp only [List.not_mem_nil, false_iff]
      rintro ⟨-, -, hb, -⟩; exact absurd hb h1
  · rw [get_async_db_trace, triggerListeners_events]
    by_cases h1 : alookup name s.bundles = none
    · by_cases h2 : name = XDBFactory.mainKey ∧ s.mainListener.isSome = true
      · rw [if_pos h1, if_pos h2]
        simp only [List.mem_singleton, DBEvent.mainCalled.injEq]
        constructor
        · intro hn; exact ⟨hn, h2.1, h1, h2.2⟩
        · intro hn; exact hn.1
      · rw [if_pos h1, if_neg h2]
        by_cases h3 : s.slaveListener.isSome = true
        · rw [if_pos h3]
          simp only [List.mem_singleton]
          constructor
          · intro hn; cases hn
          · rintro ⟨-, hb, -, hc⟩; exact absurd ⟨hb, hc⟩ h2
        · rw [if_neg h3]
          simp only [List.not_mem_nil, false_iff]
          rintro ⟨-, hb, -, hc⟩; exact absurd ⟨hb, hc⟩ h2
    · rw [if_neg h1]
      simp only [List.not_mem_nil, false_iff]
      rintro ⟨-, -, hb, -⟩; exact absurd hb h1
  · intro hne h1 h3
    have h2 : ¬ (name = XDBFactory.mainKey ∧ s.mainListener.isSome = true) := by
      rintro ⟨hb, -⟩; exact absurd hb hne
    constructor
    · rw [get_sync_db_trace, triggerListeners_events, if_pos h1, if_neg h2,
        if_pos h3]
      exact List.mem_singleton.mpr rfl
    · rw [get_async_db_trace, triggerListeners_events, if_pos h1, if_neg h2,
        if_pos h3]
      exact List.mem_singleton.mpr rfl

theorem claim_C3_witness :
    (XDBFactory.register_main_db ⟨[], some (fun _ b => b), some (fun _ b => b)⟩
      (fun _ b => b)).bundles = [] ∧
    DBEvent.mainCalled XDBFactory.mainKey ∈
      (XDBFactory.get_sync_db ⟨[], some (fun _ b => b), some (fun _ b => b)⟩
        XDBFactory.mainKey true).2.1 ∧
    DBEvent.slaveCalled ['x'] ∈
      (XDBFactory.get_sync_db ⟨[], some (fun _ b => b), some (fun _ b => b)⟩
        ['x'] true).2.1 :=
  ⟨(claim_C3 ⟨[], some (fun _ b => b), some (fun _ b => b)⟩ (fun _ b => b)
      XDBFactory.mainKey XDBFactory.mainKey true).1.1,
   (claim_C3 ⟨[], some (fun _ b => b), some (fun _ b => b)⟩ (fun _ b => b)
      XDBFactory.mainKey XDBFactory.mainKey true).2.1.mpr ⟨rfl, rfl, rfl, rfl⟩,
   ((claim_C3 ⟨[], some (fun _ b => b), some (fun _ b => b)⟩ (fun _ b => b)
      ['x'] ['x'] true).2.2.2 (by decide) rfl rfl).1⟩

theorem getLoop_cons_dict (dflt : PVal) (kvs : List (LC × PVal)) (k : LC)
    (ks : List LC) :
    JsonUtil.getLoop dflt (.vdict kvs) (k :: ks) =
      (match alookup k kvs with
       | some v => JsonUtil.getLoop dflt v ks
       | none => dflt) := rfl

theorem getSpec_cons_dict (kvs : List (LC × PVal)) (k : LC) (ks : List LC) :
    JsonUtil.getSpec (.vdict kvs) (k :: ks) =
      (match alookup k kvs with
       | some v => JsonUtil.getSpec v ks
       | none => none) := rfl

theorem getLoop_eq_spec : ∀ (ks : List LC) (cur dflt : PVal),
    JsonUtil.getLoop dflt cur ks = (JsonUtil.getSpec cur ks).getD dflt := by
  intro ks
  induction ks with
  | nil => intro cur dflt; rfl
  | cons k ks ih =>
    intro cur dflt
    cases cur with
    | vdict kvs =>
      rw [getLoop_cons_dict, getSpec_cons_dict]
      cases halk : alookup k kvs with
      | some v => simp only [halk]; exact ih v dflt
      | none => simp only [halk, Option.getD_none]
    | vnone => rfl
    | vbool b => rfl
    | vint nv => rfl
    | vfloat fv => rfl
    | vstr sv => rfl
    | vlist xs => rfl

/-- C10: `JsonUtil.get` is total: on a dict with a nonempty path it returns
exactly the value reached by following the dot-separated keys through dicts
(the spec-side `getSpec`), falling back to the default when the walk fails;
on a non-dict or an empty path it returns the default. -/
theorem claim_C10 (data : PVal) (path : LC) (dflt : PVal) :
    (∀ kvs, data = .vdict kvs → path ≠ [] →
      JsonUtil.get data path dflt =
        (JsonUtil.getSpec data (JsonUtil.splitDot path)).getD dflt) ∧
    ((∀ kvs, data ≠ .vdict kvs) → JsonUtil.get data path dflt = dflt) ∧
    (path = [] → JsonUtil.get data path dflt = dflt) := by
  refine ⟨?_, ?_, ?_⟩
  · intro kvs hdata hpath
    subst hdata
    unfold JsonUtil.get
    rw [if_neg hpath]
    exact getLoop_eq_spec _ _ _
  · intro hnd
    cases data with
    | vdict kvs => exact absurd rfl (hnd kvs)
    | vnone => rfl
    | vbool b => rfl
    | vint nv => rfl
    | vfloat fv => rfl
    | vstr sv => rfl
    | vlist xs => rfl
  · intro hpath
    subst hpath
    cases data <;> rfl

/-- C6 counterexample: `XCache.getInt` catches only `ValueError`, so with a
msgpack list stored under the key, `int()` raises `TypeError` and the
getter propagates the exception instead of returning the default. -/
theorem claim_C6_counterexample :
    (XCache.getInt listOracle initializedObj ['k'] (.vint 0)).2.2 =
      .exn .typeError ∧
    (XCache.getInt listOracle initializedObj ['k'] (.vint 0)).2.2 ≠
      .ret (.vint 0) ∧
    (XCache.getFloat listOracle initializedObj ['k'] (.vint 0)).2.2 =
      .exn .typeError := by
  have h1 : (XCache.getInt listOracle initializedObj ['k'] (.vint 0)).2.2 =
      .exn .typeError := rfl
  refine ⟨h1, ?_, rfl⟩
  rw [h1]
  simp

/-- C6 (amended): the `ConfigManager` typed getters return the supplied
default on an absent key, on an unconvertible value (both `TypeError` and
`ValueError` from the conversion are caught) and on an unrecognized boolean
string, never raising; the `XCache` getters return the default only when the
conversion raises `ValueError`, while a `TypeError` from `int()` / `float()`
on a non-numeric non-string value propagates to the caller. -/
theorem claim_C6 (root : PVal) (path : LC) (di : Int) (df : DecFloat) (db : Bool)
    (o : CacheOracle) (st : XCacheObj) (k : LC) (d : PVal) :
    (ConfigManager.get_by_path root path = none →
      ConfigManager.get_int root path di = di ∧
      ConfigManager.get_float root path df = df ∧
      ConfigManager.get_bool root path db = db) ∧
    (∀ v, ConfigManager.get_by_path root path = some v →
      ((∃ e, pyInt v = .error e) → ConfigManager.get_int root path di = di) ∧
      ((∃ e, pyFloat v = .error e) →
        ConfigManager.get_float root path df = df)) ∧
    (∀ sv, ConfigManager.get_by_path root path = some (.vstr sv) →
      (trimL sv).map pyLowerChar ∉ ConfigManager.trueWords →
      (trimL sv).map pyLowerChar ∉ ConfigManager.falseWords →
      ConfigManager.get_bool root path db = db) ∧
    (∀ v, o.ping_ok = true → o.get_result = .ok (some v) →
      (pyInt v = .error .valueError → (XCache.getInt o st k d).2.2 = .ret d) ∧
      (pyInt v = .error .typeError →
        (XCache.getInt o st k d).2.2 = .exn .typeError) ∧
      (pyFloat v = .error .valueError →
        (XCache.getFloat o st k d).2.2 = .ret d) ∧
      (pyFloat v = .error .typeError →
        (XCache.getFloat o st k d).2.2 = .exn .typeError)) := by
  refine ⟨?_, ?_, ?_, ?_⟩
  · intro h
    refine ⟨?_, ?_, ?_⟩ <;>
      simp [ConfigManager.get_int, ConfigManager.get_float,
        ConfigManager.get_bool, h]
  · intro v hv
    constructor
    · rintro ⟨e, he⟩
      simp [ConfigManager.get_int, hv, he]
    · rintro ⟨e, he⟩
      simp [ConfigManager.get_float, hv, he]
  · intro sv hv h1 h2
    simp [ConfigManager.get_bool, hv, h1, h2]
  · intro v hp hg
    have hget : (XCache.get o st k d).2.2 = .ret v := by
      by_cases hc : st.client = true
      · simp [XCache.get, init_client_of_client hc, hg]
      · have hc' : st.client = false := by
          cases h2 : st.client
          · rfl
          · exact absurd h2 hc
        simp [XCache.get, init_client_of_not_client hc', hp, hg]
    refine ⟨?_, ?_, ?_, ?_⟩ <;> intro hpc <;>
      simp [XCache.getInt, XCache.getFloat, hget, hpc]

theorem claim_C6_witness :
    ConfigManager.get_int (.vdict [(['a'], .vint 5)]) ['z'] 7 = 7 ∧
    (XCache.getInt strOracle initializedObj ['k'] (.vint 7)).2.2 =
      .ret (.vint 7) ∧
    (XCache.getInt listOracle initializedObj ['k'] (.vint 7)).2.2 =
      .exn .typeError :=
  ⟨((claim_C6 (.vdict [(['a'], .vint 5)]) ['z'] 7 ⟨false, 0, []⟩ false
      strOracle initializedObj ['k'] (.vint 7)).1 rfl).1,
   ((claim_C6 (.vdict [(['a'], .vint 5)]) ['z'] 7 ⟨false, 0, []⟩ false
      strOracle initializedObj ['k'] (.vint 7)).2.2.2 (.vstr ['x'])
      rfl rfl).1 rfl,
   ((claim_C6 (.vdict [(['a'], .vint 5)]) ['z'] 7 ⟨false, 0, []⟩ false
      listOracle initializedObj ['k'] (.vint 7)).2.2.2 (.vlist [])
      rfl rfl).2.1 rfl⟩

/-- C1: for every string value of the merged configuration, interpolation
substitutes each `_ENV_PATTERN` occurrence through the environment: a set
variable is replaced by its value (in any surrounding placeholder-free text,
and for each of several occurrences); an unset variable with no spec becomes
the empty string, with a `:default` spec the literal default text, and with
a `:?msg` spec a raised `ConfigError`; an escaped placeholder is preserved
as the literal placeholder text; and the in-place traversal applies this
substitution to the string values inside dicts. -/
theorem claim_C1 (env : LC → Option LC) (nm v dflt msg body pre suf key s : LC)
    (hnm : ConfigManager.validName nm = true) :
    (env nm = some v → (∀ c ∈ pre, c ≠ '$' ∧ c ≠ '\\') →
      (∀ c ∈ suf, c ≠ '$' ∧ c ≠ '\\') →
      ConfigManager.hasSub ConfigManager.escMark (pre ++ (v ++ suf)) = false →
      ConfigManager.interpolate_str env
        (pre ++ ('$' :: '{' :: (nm ++ '}' :: suf))) = .ok (pre ++ (v ++ suf))) ∧
    (env nm = none →
      ConfigManager.interpolate_str env ('$' :: '{' :: (nm ++ ['}'])) = .ok []) ∧
    (env nm = none → '}' ∉ dflt → '\\' ∉ dflt → dflt.head? ≠ some '?' →
      ConfigManager.hasSub ConfigManager.escMark dflt = false →
      ConfigManager.interpolate_str env
        ('$' :: '{' :: (nm ++ ':' :: (dflt ++ ['}']))) = .ok dflt) ∧
    (env nm = none → '}' ∉ msg → '\\' ∉ msg →
      ∃ e, ConfigManager.interpolate_str env
        ('$' :: '{' :: (nm ++ ':' :: (('?' :: msg) ++ ['}']))) = .error e) ∧
    ('$' ∉ body → '\\' ∉ body →
      ConfigManager.hasSub ConfigManager.escMark (body ++ ['}']) = false →
      ConfigManager.interpolate_str env ('\\' :: '$' :: '{' :: (body ++ ['}'])) =
        .ok ('$' :: '{' :: (body ++ ['}']))) ∧
    (env nm = some v → '_' ∉ v →
      ConfigManager.interpolate_str env
        ('$' :: '{' :: (nm ++ '}' :: '$' :: '{' :: (nm ++ ['}']))) =
        .ok (v ++ v)) ∧
    (ConfigManager.interpolate_inplace env (.vdict [(key, .vstr s)]) =
      match ConfigManager.interpolate_str env s with
      | .ok r => .ok (.vdict [(key, .vstr r)])
      | .error e => .error e) := by
  have hnmbs : '\\' ∉ nm := fun h =>
    absurd (ConfigManager.validName_all_isNameChar hnm _ h) (by decide)
  have hnmdl : ∀ c ∈ nm, c ≠ '$' := fun c hc he =>
    absurd (ConfigManager.validName_all_isNameChar hnm c hc) (by rw [he]; decide)
  refine ⟨?_, ?_, ?_, ?_, ?_, ?_, ?_⟩
  · intro henv hpre hsuf hsm
    have hnb : '\\' ∉ pre ++ ('$' :: '{' :: (nm ++ '}' :: suf)) := by
      intro hm
      rcases List.mem_append.mp hm with h | h
      · exact (hpre _ h).2 rfl
      · rcases List.mem_cons.mp h with h | h
        · exact absurd h (by decide)
        rcases List.mem_cons.mp h with h | h
        · exact absurd h (by decide)
        rcases List.mem_append.mp h with h | h
        · exact hnmbs h
        rcases List.mem_cons.mp h with h | h
        · exact absurd h (by decide)
        · exact (hsuf _ h).2 rfl
    unfold ConfigManager.interpolate_str
    rw [if_neg (by simp)]
    rw [ConfigManager.replaceAll_of_hasSub_false
      (ConfigManager.hasSub_escPat_false hnb)]
    rw [ConfigManager.subGo_append_nodollar (fun c hc => (hpre c hc).1)]
    rw [ConfigManager.subGo_hit (ConfigManager.tryMatch_plain hnm suf)]
    rw [ConfigManager.applyRepl_hit henv]
    rw [ConfigManager.subGo_nodollar (fun c hc => (hsuf c hc).1)]
    simp [ConfigManager.replaceAll_of_hasSub_false hsm]
  · intro henv
    have hnb : '\\' ∉ '$' :: '{' :: (nm ++ ['}']) := by
      intro hm
      rcases List.mem_cons.mp hm with h | h
      · exact absurd h (by decide)
      rcases List.mem_cons.mp h with h | h
      · exact absurd h (by decide)
      rcases List.mem_append.mp h with h | h
      · exact hnmbs h
      · exact absurd h (by decide)
    unfold ConfigManager.interpolate_str
    rw [if_neg (by simp)]
    rw [ConfigManager.replaceAll_of_hasSub_false
      (ConfigManager.hasSub_escPat_false hnb)]
    rw [ConfigManager.subGo_hit (ConfigManager.tryMatch_plain hnm [])]
    rw [ConfigManager.applyRepl_unset_nospec henv, ConfigManager.subGo_nil]
    simp [ConfigManager.replaceAll_nil]
  · intro henv hbr hbs hq hsm
    have hnb : '\\' ∉ '$' :: '{' :: (nm ++ ':' :: (dflt ++ ['}'])) := by
      intro hm
      rcases List.mem_cons.mp hm with h | h
      · exact absurd h (by decide)
      rcases List.mem_cons.mp h with h | h
      · exact absurd h (by decide)
      rcases List.mem_append.mp h with h | h
      · exact hnmbs h
      rcases List.mem_cons.mp h with h | h
      · exact absurd h (by decide)
      rcases List.mem_append.mp h with h | h
      · exact hbs h
      · exact absurd h (by decide)
    unfold ConfigManager.interpolate_str
    rw [if_neg (by simp)]
    rw [ConfigManager.replaceAll_of_hasSub_false
      (ConfigManager.hasSub_escPat_false hnb)]
    rw [ConfigManager.subGo_hit (ConfigManager.tryMatch_with_spec hnm hbr [])]
    rw [ConfigManager.applyRepl_unset_default henv hq, ConfigManager.subGo_nil]
    simp [ConfigManager.replaceAll_of_hasSub_false hsm]
  · intro henv hbr hbs
    have hq : '}' ∉ ('?' :: msg) := by
      intro hm
      rcases List.mem_cons.mp hm with h | h
      · exact absurd h (by decide)
      · exact hbr h
    have hnb : '\\' ∉ '$' :: '{' :: (nm ++ ':' :: (('?' :: msg) ++ ['}'])) := by
      intro hm
      rcases List.mem_cons.mp hm with h | h
      · exact absurd h (by decide)
      rcases List.mem_cons.mp h with h | h
      · exact absurd h (by decide)
      rcases List.mem_append.mp h with h | h
      · exact hnmbs h
      rcases List.mem_cons.mp h with h | h
      · exact absurd h (by decide)
      rcases List.mem_append.mp h with h | h
      · rcases List.mem_cons.mp h with h | h
        · exact absurd h (by decide)
        · exact hbs h
      · exact absurd h (by decide)
    refine ⟨ConfigManager.mkConfigErrMsg nm msg, ?_⟩
    unfold ConfigManager.interpolate_str
    rw [if_neg (by simp)]
    rw [ConfigManager.replaceAll_of_hasSub_false
      (ConfigManager.hasSub_escPat_false hnb)]
    rw [ConfigManager.subGo_hit (ConfigManager.tryMatch_with_spec hnm hq [])]
    rw [ConfigManager.applyRepl_unset_required henv]
  · intro hbd hbs hsm
    have hX : '\\' ∉ body ++ ['}'] := by
      intro hm
      rcases List.mem_append.mp hm with h | h
      · exact hbs h
      · exact absurd h (by decide)
    have hnd : ∀ c ∈ ConfigManager.escMark ++ (body ++ ['}']), c ≠ '$' := by
      intro c hc
      rcases List.mem_append.mp hc with h | h
      · exact ConfigManager.escMark_nodollar c h
      rcases List.mem_append.mp h with h | h
      · exact fun he => hbd (he ▸ h)
      · rcases List.mem_cons.mp h with h | h
        · rw [h]; decide
        · cases h
    have h1 : ConfigManager.replaceAll ConfigManager.escPat ConfigManager.escMark
        ('\\' :: '$' :: '{' :: (body ++ ['}'])) =
        ConfigManager.escMark ++ (body ++ ['}']) := by
      have h0 := @ConfigManager.replaceAll_append_pat ConfigManager.escPat
        (by decide) ConfigManager.escMark (body ++ ['}'])
      exact h0.trans (by
        rw [ConfigManager.replaceAll_of_hasSub_false
          (ConfigManager.hasSub_escPat_false hX)])
    have h2 : ConfigManager.replaceAll ConfigManager.escMark
        ConfigManager.dollarBrace
        (ConfigManager.escMark ++ (body ++ ['}'])) =
        ConfigManager.dollarBrace ++ (body ++ ['}']) := by
      have h0 := @ConfigManager.replaceAll_append_pat ConfigManager.escMark
        (by decide) ConfigManager.dollarBrace (body ++ ['}'])
      exact h0.trans (by
        rw [ConfigManager.replaceAll_of_hasSub_false hsm])
    unfold ConfigManager.interpolate_str
    rw [if_neg (by simp)]
    rw [h1, ConfigManager.subGo_nodollar hnd]
    simp [h2]
    rfl
  · intro henv hu
    have hnb : '\\' ∉ '$' :: '{' :: (nm ++ '}' :: '$' :: '{' :: (nm ++ ['}'])) := by
      intro hm
      rcases List.mem_cons.mp hm with h | h
      · exact absurd h (by decide)
      rcases List.mem_cons.mp h with h | h
      · exact absurd h (by decide)
      rcases List.mem_append.mp h with h | h
      · exact hnmbs h
      rcases List.mem_cons.mp h with h | h
      · exact absurd h (by decide)
      rcases List.mem_cons.mp h with h | h
      · exact absurd h (by decide)
      rcases List.mem_cons.mp h with h | h
      · exact absurd h (by decide)
      rcases List.mem_append.mp h with h | h
      · exact hnmbs h
      · rcases List.mem_cons.mp h with h | h
        · exact absurd h (by decide)
        · cases h
    have hsm : ConfigManager.hasSub ConfigManager.escMark (v ++ v) = false := by
      refine ConfigManager.hasSub_escMark_false ?_
      intro hm
      rcases List.mem_append.mp hm with h | h
      · exact hu h
      · exact hu h
    unfold ConfigManager.interpolate_str
    rw [if_neg (by simp)]
    rw [ConfigManager.replaceAll_of_hasSub_false
      (ConfigManager.hasSub_escPat_false hnb)]
    rw [ConfigManager.subGo_hit
      (ConfigManager.tryMatch_plain hnm ('$' :: '{' :: (nm ++ ['}'])))]
    rw [ConfigManager.applyRepl_hit henv]
    rw [ConfigManager.subGo_hit (ConfigManager.tryMatch_plain hnm [])]
    rw [ConfigManager.applyRepl_hit henv, ConfigManager.subGo_nil]
    simp [ConfigManager.replaceAll_of_hasSub_false hsm]
  · cases hres : ConfigManager.interpolate_str env s with
    | ok r =>
      rw [ConfigManager.interpolate_inplace, ConfigManager.interpolate_dict,
        ConfigManager.interpolate_inplace, hres, ConfigManager.interpolate_dict]
    | error e =>
      rw [ConfigManager.interpolate_inplace, ConfigManager.interpolate_dict,
        ConfigManager.interpolate_inplace, hres]

theorem claim_C1_witness :
    ConfigManager.interpolate_str envVAR
      (['p', '-'] ++ ('$' :: '{' :: (['V', 'A', 'R'] ++ '}' :: ['-', 'q']))) =
      .ok (['p', '-'] ++ (['v', 'a', 'l'] ++ ['-', 'q'])) ∧
    ConfigManager.interpolate_str envVAR
      ('$' :: '{' :: (['N', 'O'] ++ ['}'])) = .ok [] ∧
    ConfigManager.interpolate_str envVAR
      ('$' :: '{' :: (['N', 'O'] ++ ':' :: (['d', 'e', 'f'] ++ ['}']))) =
      .ok ['d', 'e', 'f'] ∧
    (∃ e, ConfigManager.interpolate_str envVAR
      ('$' :: '{' :: (['N', 'O'] ++ ':' :: (('?' :: ['m']) ++ ['}']))) =
      .error e) ∧
    ConfigManager.interpolate_str envVAR
      ('\\' :: '$' :: '{' :: (['N', 'O'] ++ ['}'])) =
      .ok ('$' :: '{' :: (['N', 'O'] ++ ['}'])) ∧
    ConfigManager.interpolate_str envVAR
      ('$' :: '{' :: (['V', 'A', 'R'] ++ '}' :: '$' :: '{' ::
        (['V', 'A', 'R'] ++ ['}']))) =
      .ok (['v', 'a', 'l'] ++ ['v', 'a', 'l']) :=
  ⟨(claim_C1 envVAR ['V', 'A', 'R'] ['v', 'a', 'l'] [] [] [] ['p', '-']
      ['-', 'q'] [] [] (by decide)).1 rfl (by decide) (by decide) (by decide),
   (claim_C1 envVAR ['N', 'O'] [] [] [] [] [] [] [] [] (by decide)).2.1 rfl,
   (claim_C1 envVAR ['N', 'O'] [] ['d', 'e', 'f'] [] [] [] [] [] []
      (by decide)).2.2.1 rfl (by decide) (by decide) (by decide) (by decide),
   (claim_C1 envVAR ['N', 'O'] [] [] ['m'] [] [] [] [] []
      (by decide)).2.2.2.1 rfl (by decide) (by decide),
   (claim_C1 envVAR ['N', 'O'] [] [] [] ['N', 'O'] [] [] [] []
      (by decide)).2.2.2.2.1 (by decide) (by decide) (by decide),
   (claim_C1 envVAR ['V', 'A', 'R'] ['v', 'a', 'l'] [] [] [] [] [] [] []
      (by decide)).2.2.2.2.2.1 rfl (by decide)⟩

theorem claim_C10_witness :
    JsonUtil.get (.vdict [(['a'], .vint 5)]) ['a'] .vnone =
      (JsonUtil.getSpec (.vdict [(['a'], .vint 5)])
        (JsonUtil.splitDot ['a'])).getD .vnone ∧
    JsonUtil.get (.vint 3) ['a'] .vnone = .vnone ∧
    JsonUtil.get (.vdict [(['a'], .vint 5)]) [] .vnone = .vnone :=
  ⟨(claim_C10 (.vdict [(['a'], .vint 5)]) ['a'] .vnone).1 [(['a'], .vint 5)]
      rfl (by decide),
   (claim_C10 (.vint 3) ['a'] .vnone).2.1 (fun kvs h => PVal.noConfusion h),
   (claim_C10 (.vdict [(['a'], .vint 5)]) [] .vnone).2.2 rfl⟩

end XyzsPy
